import Mathlib

/-!
Verification of the depth-to-RGB online-calibration optimizer
(`src/algo/depth-to-rgb-calibration/optimizer.cpp`).

The C++ code is shallowly embedded over exact rationals (ℚ stands for
`double`; claims about floating-point rounding are out of scope).  Images
are flat row-major vectors, mirrored here either as `List ℚ` (when the
code mutates a buffer in place) or as index functions `ℕ → ℚ` (when the
code only reads).  External collaborators that live in other translation
units (`calc_cost`, `decompose`, `get_texture_map`, `convert_new_k_to_DSM`,
`sqrt`, `atan2`) are abstracted as function parameters; definitions whose
doc comment starts with "Modelled from the spec:" follow the specification
text for those missing parts.
-/

namespace DepthToRgb

/-- Read a flat buffer at an index, with the C++ out-of-bounds read left as
a default 0 (all uses in the embedded code are in bounds). -/
def getQ (l : List ℚ) (i : ℕ) : ℚ := l.getD i 0

/-- Setting an entry of a list to its own current value is the identity. -/
theorem set_getD_self (l : List ℚ) (i : ℕ) : l.set i (l.getD i 0) = l := by
  induction l generalizing i with
  | nil => simp
  | cons a t ih =>
    cases i with
    | zero => simp [List.getD_cons_zero]
    | succ n =>
      rw [List.getD_cons_succ, List.set_cons_succ, ih n]

/-- All entries of a list are nonnegative entails every `getD` read is. -/
theorem getQ_nonneg {l : List ℚ} (h : ∀ x ∈ l, 0 ≤ x) (i : ℕ) : 0 ≤ getQ l i := by
  unfold getQ
  rcases lt_or_ge i l.length with hi | hi
  · rw [List.getD_eq_getElem _ _ hi]
    exact h _ (List.getElem_mem hi)
  · rw [List.getD_eq_default _ _ hi]

/-! ### 4.2 Directional edge-intensity diffusion (`optimizer::blur_edges`) -/

/-- Raster-order pixel coordinates `(i, j)`, top-left to bottom-right,
as iterated by the two `for` loops of the forward pass. -/
def rasterIdx (w h : ℕ) : List (ℕ × ℕ) :=
  (List.range h).flatMap fun i => (List.range w).map fun j => (i, j)

/-- Reverse raster-order pixel coordinates, bottom-right to top-left,
as iterated by the backward pass. -/
def rasterIdxRev (w h : ℕ) : List (ℕ × ℕ) :=
  ((List.range h).reverse).flatMap fun i => ((List.range w).reverse).map fun j => (i, j)

/-- One cell update of the forward max-propagation pass
(`optimizer.cpp:953-970`): skip `(0,0)`, first row looks left, first
column looks up, interior takes the max of both causal neighbours scaled
by `gamma`. -/
def blurFwdCell (gamma : ℚ) (w : ℕ) (res : List ℚ) (ij : ℕ × ℕ) : List ℚ :=
  let i := ij.1; let j := ij.2
  if i = 0 ∧ j = 0 then res
  else if i = 0 then
    res.set j (max (getQ res j) (getQ res (j - 1) * gamma))
  else if j = 0 then
    res.set (i * w + j) (max (getQ res (i * w + j)) (getQ res ((i - 1) * w + j) * gamma))
  else
    res.set (i * w + j)
      (max (getQ res (i * w + j))
        (max (getQ res (i * w + j - 1) * gamma) (getQ res ((i - 1) * w + j) * gamma)))

/-- One cell update of the backward max-propagation pass
(`optimizer.cpp:973-984`). -/
def blurBwdCell (gamma : ℚ) (w h : ℕ) (res : List ℚ) (ij : ℕ × ℕ) : List ℚ :=
  let i := ij.1; let j := ij.2
  if i = h - 1 ∧ j = w - 1 then res
  else if i = h - 1 then
    res.set (i * w + j) (max (getQ res (i * w + j)) (getQ res (i * w + j + 1) * gamma))
  else if j = w - 1 then
    res.set (i * w + j) (max (getQ res (i * w + j)) (getQ res ((i + 1) * w + j) * gamma))
  else
    res.set (i * w + j)
      (max (getQ res (i * w + j))
        (max (getQ res (i * w + j + 1) * gamma) (getQ res ((i + 1) * w + j) * gamma)))

/-- One cell of the final blend (`optimizer.cpp:986-988`):
`res[i*w+j] = alpha * edges[i*w+j] + (1 - alpha) * res[i*w+j]`. -/
def blurBlendCell (alpha : ℚ) (w : ℕ) (edges : List ℚ) (res : List ℚ) (ij : ℕ × ℕ) : List ℚ :=
  res.set (ij.1 * w + ij.2)
    (alpha * getQ edges (ij.1 * w + ij.2) + (1 - alpha) * getQ res (ij.1 * w + ij.2))

/-- `optimizer::blur_edges` (`optimizer.cpp:949-990`): forward pass,
backward pass, then the `alpha` blend with the original edges. -/
def blur_edges (gamma alpha : ℚ) (w h : ℕ) (edges : List ℚ) : List ℚ :=
  let fwd := (rasterIdx w h).foldl (blurFwdCell gamma w) edges
  let bwd := (rasterIdxRev w h).foldl (blurBwdCell gamma w h) fwd
  (rasterIdx w h).foldl (blurBlendCell alpha w edges) bwd

theorem blurFwdCell_zero {res : List ℚ} (h : ∀ x ∈ res, 0 ≤ x) (ij : ℕ × ℕ) :
    blurFwdCell 0 w res ij = res := by
  simp only [blurFwdCell]
  have hmax : ∀ k m : ℕ, max (getQ res k) (getQ res m * 0) = getQ res k := by
    intro k m
    rw [mul_zero]
    exact max_eq_left (getQ_nonneg h k)
  have hmax2 : ∀ k m m' : ℕ,
      max (getQ res k) (max (getQ res m * 0) (getQ res m' * 0)) = getQ res k := by
    intro k m m'
    rw [mul_zero, mul_zero, max_self]
    exact max_eq_left (getQ_nonneg h k)
  split
  · rfl
  · split
    · rw [hmax]; exact set_getD_self _ _
    · split
      · rw [hmax]; exact set_getD_self _ _
      · rw [hmax2]; exact set_getD_self _ _

theorem blurBwdCell_zero {res : List ℚ} (h : ∀ x ∈ res, 0 ≤ x) (ij : ℕ × ℕ) :
    blurBwdCell 0 w hh res ij = res := by
  simp only [blurBwdCell]
  have hmax : ∀ k m : ℕ, max (getQ res k) (getQ res m * 0) = getQ res k := by
    intro k m
    rw [mul_zero]
    exact max_eq_left (getQ_nonneg h k)
  have hmax2 : ∀ k m m' : ℕ,
      max (getQ res k) (max (getQ res m * 0) (getQ res m' * 0)) = getQ res k := by
    intro k m m'
    rw [mul_zero, mul_zero, max_self]
    exact max_eq_left (getQ_nonneg h k)
  split
  · rfl
  · split
    · rw [hmax]; exact set_getD_self _ _
    · split
      · rw [hmax]; exact set_getD_self _ _
      · rw [hmax2]; exact set_getD_self _ _

theorem blurBlendCell_self (alpha : ℚ) (w : ℕ) (edges : List ℚ) (ij : ℕ × ℕ) :
    blurBlendCell alpha w edges edges ij = edges := by
  unfold blurBlendCell
  have : alpha * getQ edges (ij.1 * w + ij.2) + (1 - alpha) * getQ edges (ij.1 * w + ij.2)
      = getQ edges (ij.1 * w + ij.2) := by ring
  rw [this]
  exact set_getD_self _ _

theorem foldl_fixed {α β : Type} (f : α → β → α) (l : List β) (a : α)
    (h : ∀ b ∈ l, f a b = a) : l.foldl f a = a := by
  induction l with
  | nil => rfl
  | cons x t ih =>
    simp only [List.foldl_cons, h x (List.mem_cons_self x t)]
    exact ih fun b hb => h b (List.mem_cons_of_mem x hb)

/-- **C8.** For every edge-magnitude field with non-negative entries,
running the directional edge-intensity diffusion with decay factor `γ = 0`
returns a field equal to the original input: both max-propagation passes
leave every pixel unchanged (the propagated neighbour contribution is
`v * 0 = 0 ≤ pixel`), and the final blend `α·e + (1-α)·e` reproduces `e`. -/
theorem blur_edges_gamma_zero (alpha : ℚ) (w h : ℕ) (edges : List ℚ)
    (hpos : ∀ x ∈ edges, 0 ≤ x) :
    blur_edges 0 alpha w h edges = edges := by
  have hfwd : (rasterIdx w h).foldl (blurFwdCell 0 w) edges = edges :=
    foldl_fixed _ _ _ fun ij _ => blurFwdCell_zero hpos ij
  have hbwd : (rasterIdxRev w h).foldl (blurBwdCell 0 w h) edges = edges :=
    foldl_fixed _ _ _ fun ij _ => blurBwdCell_zero hpos ij
  have hblend : (rasterIdx w h).foldl (blurBlendCell alpha w edges) edges = edges :=
    foldl_fixed _ _ _ fun ij _ => blurBlendCell_self alpha w edges ij
  simp only [blur_edges, hfwd, hbwd, hblend]

/-- Witness for C8 on a concrete 2×2 nonnegative field. -/
theorem blur_edges_gamma_zero_witness :
    blur_edges 0 (1/2) 2 2 [1, 0, 3/2, 2] = [1, 0, 3/2, 2] := by
  apply blur_edges_gamma_zero
  intro x hx
  simp only [List.mem_cons, List.not_mem_nil, or_false] at hx
  rcases hx with rfl | rfl | rfl | rfl <;> norm_num

/-! ### 4.3 Parabolic sub-pixel refinement (`optimizer::set_z_data`, lines 558-593)

The loop walks three flat arrays with stepping iterators: `local_edges`
(four profile samples per valid pixel), `valid_location_rc` (row, column
interleaved) and `direction_per_pixel` (two direction components per
pixel), producing the per-pixel parabolic step and the sub-pixel
locations. -/

/-- Reading a dropped list is reading the original at a shifted index. -/
theorem getD_drop0 (l : List ℚ) (k i : ℕ) : (l.drop k).getD i 0 = l.getD (k + i) 0 := by
  induction k generalizing l with
  | zero => simp
  | succ m ih =>
    cases l with
    | nil => simp
    | cons a t =>
      rw [List.drop_succ_cons, ih t]
      have : m + 1 + i = (m + i) + 1 := by omega
      rw [this, List.getD_cons_succ]

/-- The parabolic sub-pixel step for one 4-tap profile
(`optimizer.cpp:576-577`): `denom == 0 ? 0 : -0.5*(s4-s2)/denom`. -/
def fraqStep (s2 s3 s4 : ℚ) : ℚ :=
  if s4 + s2 - 2 * s3 = 0 then 0 else -(1/2) * (s4 - s2) / (s4 + s2 - 2 * s3)

/-- Output arrays of the sub-pixel loop: `_ir.fraq_step`,
`_z.local_rc_subpixel`, `_z.edge_sub_pixel` and the two scratch vectors
`edge_sub_pixel_x` / `edge_sub_pixel_y`. -/
structure SubpixOut where
  fraq_step : List ℚ
  local_rc_subpixel : List ℚ
  edge_sub_pixel : List ℚ
  edge_sub_pixel_x : List ℚ
  edge_sub_pixel_y : List ℚ

/-- The sub-pixel loop of `set_z_data` (`optimizer.cpp:566-593`).  Each
iteration consumes four profile samples (only taps 2..4 are read), one
(row, column) pair and one direction pair; iterator advancement is
modelled by dropping the consumed prefixes. -/
def subpix_loop : List ℚ → List ℚ → List ℚ → ℕ → SubpixOut
  | _, _, _, 0 => ⟨[], [], [], [], []⟩
  | le, rc, dpp, n + 1 =>
    let s2 := getQ le 1
    let s3 := getQ le 2
    let s4 := getQ le 3
    let res := fraqStep s2 s3 s4
    let valx := getQ rc 0 + getQ dpp 0 * res
    let valy := getQ rc 1 + getQ dpp 1 * res
    let rest := subpix_loop (le.drop 4) (rc.drop 2) (dpp.drop 2) n
    ⟨res :: rest.fraq_step,
     valx :: valy :: rest.local_rc_subpixel,
     valy :: valx :: rest.edge_sub_pixel,
     valy :: rest.edge_sub_pixel_x,
     valx :: rest.edge_sub_pixel_y⟩

theorem subpix_loop_fraq_getD (le rc dpp : List ℚ) (n i : ℕ) (hi : i < n) :
    getQ (subpix_loop le rc dpp n).fraq_step i
      = fraqStep (getQ le (4 * i + 1)) (getQ le (4 * i + 2)) (getQ le (4 * i + 3)) := by
  induction n generalizing le rc dpp i with
  | zero => omega
  | succ m ih =>
    cases i with
    | zero => simp [subpix_loop, getQ]
    | succ k =>
      have hk : k < m := Nat.lt_of_succ_lt_succ hi
      have H := ih (le.drop 4) (rc.drop 2) (dpp.drop 2) k hk
      simp only [subpix_loop, getQ, List.getD_cons_succ] at H ⊢
      rw [H, getD_drop0, getD_drop0, getD_drop0,
        show 4 + (4*k+1) = 4*(k+1)+1 from by omega,
        show 4 + (4*k+2) = 4*(k+1)+2 from by omega,
        show 4 + (4*k+3) = 4*(k+1)+3 from by omega]

theorem subpix_loop_espx_getD (le rc dpp : List ℚ) (n i : ℕ) (hi : i < n) :
    getQ (subpix_loop le rc dpp n).edge_sub_pixel_x i
      = getQ rc (2 * i + 1) + getQ dpp (2 * i + 1)
          * fraqStep (getQ le (4 * i + 1)) (getQ le (4 * i + 2)) (getQ le (4 * i + 3)) := by
  induction n generalizing le rc dpp i with
  | zero => omega
  | succ m ih =>
    cases i with
    | zero => simp [subpix_loop, getQ]
    | succ k =>
      have hk : k < m := Nat.lt_of_succ_lt_succ hi
      have H := ih (le.drop 4) (rc.drop 2) (dpp.drop 2) k hk
      simp only [subpix_loop, getQ, List.getD_cons_succ] at H ⊢
      rw [H, getD_drop0, getD_drop0, getD_drop0, getD_drop0, getD_drop0,
        show 2 + (2*k+1) = 2*(k+1)+1 from by omega,
        show 4 + (4*k+1) = 4*(k+1)+1 from by omega,
        show 4 + (4*k+2) = 4*(k+1)+2 from by omega,
        show 4 + (4*k+3) = 4*(k+1)+3 from by omega]

theorem subpix_loop_espy_getD (le rc dpp : List ℚ) (n i : ℕ) (hi : i < n) :
    getQ (subpix_loop le rc dpp n).edge_sub_pixel_y i
      = getQ rc (2 * i) + getQ dpp (2 * i)
          * fraqStep (getQ le (4 * i + 1)) (getQ le (4 * i + 2)) (getQ le (4 * i + 3)) := by
  induction n generalizing le rc dpp i with
  | zero => omega
  | succ m ih =>
    cases i with
    | zero => simp [subpix_loop, getQ]
    | succ k =>
      have hk : k < m := Nat.lt_of_succ_lt_succ hi
      have H := ih (le.drop 4) (rc.drop 2) (dpp.drop 2) k hk
      simp only [subpix_loop, getQ, List.getD_cons_succ] at H ⊢
      rw [H, getD_drop0, getD_drop0, getD_drop0, getD_drop0, getD_drop0,
        show 2 + 2*k = 2*(k+1) from by omega,
        show 4 + (4*k+1) = 4*(k+1)+1 from by omega,
        show 4 + (4*k+2) = 4*(k+1)+2 from by omega,
        show 4 + (4*k+3) = 4*(k+1)+3 from by omega]

/-- **C5.** For every valid edge pixel `i` with 4-tap profile samples
`s1..s4`, the parabolic sub-pixel offset is exactly `0` when the
denominator `s4 + s2 - 2*s3` is zero, equals `-0.5*(s4-s2)/(s4+s2-2*s3)`
when it is nonzero, and the sub-pixel location (both coordinates of
`edge_sub_pixel`) is the original pixel location advanced by this offset
along the pixel's quantized direction vector. -/
theorem subpixel_parabolic_offset (le rc dpp : List ℚ) (n i : ℕ) (hi : i < n) :
    (getQ le (4*i+3) + getQ le (4*i+1) - 2 * getQ le (4*i+2) = 0 →
      getQ (subpix_loop le rc dpp n).fraq_step i = 0)
    ∧ (getQ le (4*i+3) + getQ le (4*i+1) - 2 * getQ le (4*i+2) ≠ 0 →
      getQ (subpix_loop le rc dpp n).fraq_step i
        = -(1/2) * (getQ le (4*i+3) - getQ le (4*i+1))
            / (getQ le (4*i+3) + getQ le (4*i+1) - 2 * getQ le (4*i+2)))
    ∧ getQ (subpix_loop le rc dpp n).edge_sub_pixel_x i
        = getQ rc (2*i+1) + getQ dpp (2*i+1) * getQ (subpix_loop le rc dpp n).fraq_step i
    ∧ getQ (subpix_loop le rc dpp n).edge_sub_pixel_y i
        = getQ rc (2*i) + getQ dpp (2*i) * getQ (subpix_loop le rc dpp n).fraq_step i := by
  rw [subpix_loop_fraq_getD le rc dpp n i hi, subpix_loop_espx_getD le rc dpp n i hi,
    subpix_loop_espy_getD le rc dpp n i hi]
  refine ⟨?_, ?_, rfl, rfl⟩
  · intro h0
    simp [fraqStep, h0]
  · intro h0
    simp [fraqStep, h0]

/-- Witness for C5: two pixels, checking pixel 0 with samples
`(s2,s3,s4) = (1,3,2)`: denominator `2+1-6 = -3`, step `1/6`, and the
sub-pixel location advanced along direction `(1,0)` from `(10,20)`. -/
theorem subpixel_parabolic_offset_witness :
    (0 < 2
    ∧ getQ (subpix_loop [0,1,3,2,0,5,5,5] [10,20,7,8] [1,0,1,1] 2).fraq_step 0 = 1/6
    ∧ getQ (subpix_loop [0,1,3,2,0,5,5,5] [10,20,7,8] [1,0,1,1] 2).edge_sub_pixel_x 0 = 20
    ∧ getQ (subpix_loop [0,1,3,2,0,5,5,5] [10,20,7,8] [1,0,1,1] 2).edge_sub_pixel_y 0
        = 10 + 1/6) := by
  have h := subpixel_parabolic_offset [0,1,3,2,0,5,5,5] [10,20,7,8] [1,0,1,1] 2 0 (by decide)
  have hden : getQ [0,1,3,2,0,5,5,5] (4*0+3) + getQ [0,1,3,2,0,5,5,5] (4*0+1)
      - 2 * getQ [0,1,3,2,0,5,5,5] (4*0+2) = -3 := by
    norm_num [getQ]
  have hstep : getQ (subpix_loop [0,1,3,2,0,5,5,5] [10,20,7,8] [1,0,1,1] 2).fraq_step 0
      = 1/6 := by
    rw [h.2.1 (by rw [hden]; norm_num)]
    norm_num [getQ]
  refine ⟨by norm_num, hstep, ?_, ?_⟩
  · rw [h.2.2.1, hstep]; norm_num [getQ]
  · rw [h.2.2.2, hstep]; norm_num [getQ]

/-! ### 4.5 Gradient accumulation (`calc_p_gradients`, optimizer.cpp:1099-1139) -/

/-- The `double` sentinel `std::numeric_limits<double>::max()`
(`DBL_MAX = (2^53 - 1) * 2^971`) used by the bilinear sampler to mark
"no data" at a vertex's projected coordinate. -/
def dblMax : ℚ := (2 ^ 53 - 1) * 2 ^ 971

/-- One iteration of the accumulation loop (`optimizer.cpp:1118-1130`):
a vertex whose sampled IDT-gradient component (x or y) equals the
sentinel is skipped entirely (`continue`); otherwise the valid count is
incremented and all 12 sums are accumulated with the vertex weight. -/
def p_grad_step (w idtx idty : List ℚ) (xc yc : List (List ℚ))
    (acc : List ℚ × ℕ) (i : ℕ) : List ℚ × ℕ :=
  if getQ idtx i = dblMax ∨ getQ idty i = dblMax then acc
  else
    ((List.range 12).map fun j =>
        getQ acc.1 j
          + getQ w i * (getQ idtx i * getQ (xc.getD i []) j
              + getQ idty i * getQ (yc.getD i []) j),
      acc.2 + 1)

/-- The sums/valid-count accumulation over all vertices
(`p_matrix sums = { 0 }; auto sum_of_valids = 0;` and the `for` loop). -/
def p_grad_fold (w idtx idty : List ℚ) (xc yc : List (List ℚ)) : List ℚ × ℕ :=
  (List.range xc.length).foldl (p_grad_step w idtx idty xc yc) (List.replicate 12 0, 0)

/-- `calc_p_gradients` (`optimizer.cpp:1099-1139`): after the
accumulation, only parameters 0..7 are averaged — each is
`sums.vals[i] / sum_of_valids`, with NO guard against a zero
`sum_of_valids` (in C++ doubles this divides by zero; the ℚ embedding
uses the `q / 0 = 0` convention) — and parameters 8..11 (the last row of
the p-matrix) are left at their `{ 0 }` initialization. -/
def calc_p_gradients (w idtx idty : List ℚ) (xc yc : List (List ℚ)) : List ℚ :=
  let s := p_grad_fold w idtx idty xc yc
  (List.range 12).map fun j => if j < 8 then getQ s.1 j / (s.2 : ℚ) else 0

theorem getQ_map_range (f : ℕ → ℚ) (m j : ℕ) (hj : j < m) :
    getQ ((List.range m).map f) j = f j := by
  unfold getQ
  rw [List.getD_eq_getElem _ _ (by simpa using hj)]
  simp

theorem p_grad_step_sentinel (w idtx idty : List ℚ) (xc yc : List (List ℚ))
    (acc : List ℚ × ℕ) (i : ℕ) (h : getQ idtx i = dblMax ∨ getQ idty i = dblMax) :
    p_grad_step w idtx idty xc yc acc i = acc := by
  unfold p_grad_step
  rw [if_pos h]

theorem p_grad_step_valid (w idtx idty : List ℚ) (xc yc : List (List ℚ))
    (acc : List ℚ × ℕ) (i : ℕ) (h : ¬(getQ idtx i = dblMax ∨ getQ idty i = dblMax)) :
    p_grad_step w idtx idty xc yc acc i
      = ((List.range 12).map fun j =>
          getQ acc.1 j + getQ w i * (getQ idtx i * getQ (xc.getD i []) j
            + getQ idty i * getQ (yc.getD i []) j),
        acc.2 + 1) := by
  unfold p_grad_step
  rw [if_neg h]

theorem getQ_replicate_zero (m j : ℕ) : getQ (List.replicate m (0:ℚ)) j = 0 := by
  unfold getQ
  rcases lt_or_ge j m with hj | hj
  · rw [List.getD_eq_getElem _ _ (by simpa using hj)]
    simp
  · rw [List.getD_eq_default _ _ (by simpa using hj)]

/-- The accumulated sums in closed form: a per-vertex weighted sum in
which sentinel-valued vertices contribute zero. -/
theorem p_grad_fold_fst (w idtx idty : List ℚ) (xc yc : List (List ℚ))
    (n j : ℕ) (hj : j < 12) :
    getQ ((List.range n).foldl (p_grad_step w idtx idty xc yc)
        (List.replicate 12 0, 0)).1 j
      = ∑ i ∈ Finset.range n,
          if getQ idtx i = dblMax ∨ getQ idty i = dblMax then 0
          else getQ w i * (getQ idtx i * getQ (xc.getD i []) j
              + getQ idty i * getQ (yc.getD i []) j) := by
  induction n with
  | zero =>
    rw [List.range_zero, List.foldl_nil]
    show getQ (List.replicate 12 0) j = _
    rw [getQ_replicate_zero]
    simp
  | succ m ih =>
    rw [List.range_succ, List.foldl_append, List.foldl_cons, List.foldl_nil,
      Finset.sum_range_succ, ← ih]
    by_cases h : getQ idtx m = dblMax ∨ getQ idty m = dblMax
    · rw [p_grad_step_sentinel _ _ _ _ _ _ _ h, if_pos h, add_zero]
    · rw [p_grad_step_valid _ _ _ _ _ _ _ h, if_neg h]
      exact getQ_map_range _ _ _ hj

/-- The valid count in closed form: number of non-sentinel vertices. -/
theorem p_grad_fold_snd (w idtx idty : List ℚ) (xc yc : List (List ℚ)) (n : ℕ) :
    ((List.range n).foldl (p_grad_step w idtx idty xc yc)
        (List.replicate 12 0, 0)).2
      = ((Finset.range n).filter
          (fun i => ¬(getQ idtx i = dblMax ∨ getQ idty i = dblMax))).card := by
  induction n with
  | zero => simp
  | succ m ih =>
    rw [List.range_succ, List.foldl_append, List.foldl_cons, List.foldl_nil,
      Finset.range_succ, Finset.filter_insert]
    by_cases h : getQ idtx m = dblMax ∨ getQ idty m = dblMax
    · rw [p_grad_step_sentinel _ _ _ _ _ _ _ h, if_neg (not_not_intro h)]
      exact ih
    · rw [p_grad_step_valid _ _ _ _ _ _ _ h, if_pos h,
        Finset.card_insert_of_not_mem (by simp)]
      exact congrArg (· + 1) ih

/-- **C3.** When every vertex in the gradient accumulation is excluded
because its sampled diffused-field gradient equals the sentinel "no data"
value, the contributing-vertex count is zero, and the per-parameter
averaging step still divides each of the first eight sums by that zero
count — the zero case is not guarded in `calc_p_gradients`. -/
theorem p_gradient_zero_count_division (w idtx idty : List ℚ) (xc yc : List (List ℚ))
    (hall : ∀ i < xc.length, getQ idtx i = dblMax) :
    (p_grad_fold w idtx idty xc yc).2 = 0
    ∧ calc_p_gradients w idtx idty xc yc
        = (List.range 12).map fun j =>
            if j < 8 then getQ (p_grad_fold w idtx idty xc yc).1 j / (0:ℚ) else 0 := by
  have hfold : p_grad_fold w idtx idty xc yc = (List.replicate 12 0, 0) := by
    unfold p_grad_fold
    refine foldl_fixed _ _ _ fun i hi => ?_
    unfold p_grad_step
    rw [if_pos (Or.inl (hall i (by simpa using hi)))]
  refine ⟨by rw [hfold], ?_⟩
  simp only [calc_p_gradients]
  rw [hfold]
  norm_num

/-- Witness for C3: a single vertex whose sampled IDT x-gradient is the
sentinel; the valid count is zero and the division by zero is performed. -/
theorem p_gradient_zero_count_division_witness :
    (∀ i < ([[ (1:ℚ) ]] : List (List ℚ)).length, getQ [dblMax] i = dblMax)
    ∧ (p_grad_fold [1] [dblMax] [0] [[1]] [[0]]).2 = 0 := by
  have hall : ∀ i < ([[ (1:ℚ) ]] : List (List ℚ)).length, getQ [dblMax] i = dblMax := by
    intro i hi
    simp only [List.length_cons, List.length_nil] at hi
    have h0 : i = 0 := by omega
    subst h0
    rfl
  exact ⟨hall, (p_gradient_zero_count_division [1] [dblMax] [0] [[1]] [[0]] hall).1⟩

/-- Modelled from the spec, for refinement comparison only (claim C4's
wording): the assembled 12-parameter gradient is the per-vertex-weighted
sum divided by the contributing count, with the last row of the p-matrix
block (parameters 8..11) excluded from that normalization — i.e. left as
the raw weighted sums. -/
def claimed_p_gradient (w idtx idty : List ℚ) (xc yc : List (List ℚ)) : List ℚ :=
  let s := p_grad_fold w idtx idty xc yc
  (List.range 12).map fun j => if j < 8 then getQ s.1 j / (s.2 : ℚ) else getQ s.1 j

/-- **C4 counterexample.** One contributing vertex (weight 1, sampled
gradients (1, 0), x-coefficient 1 at parameter 8): the raw weighted sum at
parameter 8 is 1, so the claim's reading (last row merely "excluded from
the normalization") predicts 1 there, but `calc_p_gradients` zeroes the
entire last row of the averaged gradient — the two disagree. -/
theorem p_gradient_claim_counterexample :
    calc_p_gradients [1] [1] [0] [[0,0,0,0,0,0,0,0,1,0,0,0]] [[0,0,0,0,0,0,0,0,0,0,0,0]]
      ≠ claimed_p_gradient [1] [1] [0] [[0,0,0,0,0,0,0,0,1,0,0,0]] [[0,0,0,0,0,0,0,0,0,0,0,0]] := by
  intro h
  have h8 : getQ (calc_p_gradients [1] [1] [0] [[0,0,0,0,0,0,0,0,1,0,0,0]]
        [[0,0,0,0,0,0,0,0,0,0,0,0]]) 8
      = getQ (claimed_p_gradient [1] [1] [0] [[0,0,0,0,0,0,0,0,1,0,0,0]]
        [[0,0,0,0,0,0,0,0,0,0,0,0]]) 8 := by rw [h]
  have hL : getQ (calc_p_gradients [1] [1] [0] [[0,0,0,0,0,0,0,0,1,0,0,0]]
      [[0,0,0,0,0,0,0,0,0,0,0,0]]) 8 = 0 := by
    unfold calc_p_gradients
    rw [getQ_map_range _ _ _ (by norm_num)]
    norm_num
  have hR : getQ (claimed_p_gradient [1] [1] [0] [[0,0,0,0,0,0,0,0,1,0,0,0]]
      [[0,0,0,0,0,0,0,0,0,0,0,0]]) 8 = 1 := by
    unfold claimed_p_gradient
    rw [getQ_map_range _ _ _ (by norm_num)]
    have := p_grad_fold_fst [1] [1] [0] [[0,0,0,0,0,0,0,0,1,0,0,0]]
      [[0,0,0,0,0,0,0,0,0,0,0,0]] 1 8 (by norm_num)
    unfold p_grad_fold
    simp only [List.length_cons, List.length_nil] at this ⊢
    rw [if_neg (by norm_num), this, Finset.sum_range_one,
      if_neg (by norm_num [getQ, dblMax])]
    norm_num [getQ]
  rw [hL, hR] at h8
  exact absurd h8 (by norm_num)

/-- **C4 (amended).** For every vertex set with at least one contributing
vertex, each of the first eight parameters of the assembled gradient is
the per-vertex-weighted sum of `sampled_gx * x_coeff + sampled_gy *
y_coeff` over contributing vertices, divided by the number of
contributing vertices; a vertex with a sentinel sampled gradient
contributes nothing and is not counted; and the last row of the p-matrix
parameter block (parameters 8..11) is set to zero rather than being
normalized. -/
theorem p_gradient_weighted_average (w idtx idty : List ℚ) (xc yc : List (List ℚ)) (j : ℕ)
    (_hcount : 1 ≤ (p_grad_fold w idtx idty xc yc).2) :
    (j < 8 → getQ (calc_p_gradients w idtx idty xc yc) j
        = (∑ i ∈ Finset.range xc.length,
            if getQ idtx i = dblMax ∨ getQ idty i = dblMax then 0
            else getQ w i * (getQ idtx i * getQ (xc.getD i []) j
                + getQ idty i * getQ (yc.getD i []) j))
          / ((((Finset.range xc.length).filter
              (fun i => ¬(getQ idtx i = dblMax ∨ getQ idty i = dblMax))).card : ℕ) : ℚ))
    ∧ (8 ≤ j → j < 12 → getQ (calc_p_gradients w idtx idty xc yc) j = 0) := by
  constructor
  · intro hj
    unfold calc_p_gradients
    rw [getQ_map_range _ _ _ (by omega), if_pos hj]
    unfold p_grad_fold
    rw [p_grad_fold_fst w idtx idty xc yc xc.length j (by omega),
      p_grad_fold_snd w idtx idty xc yc xc.length]
  · intro hj8 hj12
    unfold calc_p_gradients
    rw [getQ_map_range _ _ _ hj12, if_neg (by omega)]

/-- Witness for C4's amended theorem at the counterexample's input:
parameter 0 averages to `0/1 = 0` and parameter 8 is zeroed. -/
theorem p_gradient_weighted_average_witness :
    1 ≤ (p_grad_fold [1] [1] [0] [[0,0,0,0,0,0,0,0,1,0,0,0]] [[0,0,0,0,0,0,0,0,0,0,0,0]]).2
    ∧ getQ (calc_p_gradients [1] [1] [0] [[0,0,0,0,0,0,0,0,1,0,0,0]]
        [[0,0,0,0,0,0,0,0,0,0,0,0]]) 8 = 0 := by
  have hc : 1 ≤ (p_grad_fold [1] [1] [0] [[0,0,0,0,0,0,0,0,1,0,0,0]]
      [[0,0,0,0,0,0,0,0,0,0,0,0]]).2 := by
    unfold p_grad_fold
    rw [p_grad_fold_snd]
    rw [show ([[(0:ℚ),0,0,0,0,0,0,0,1,0,0,0]] : List (List ℚ)).length = 1 from rfl]
    rw [Finset.range_one, Finset.filter_singleton, if_pos (by norm_num [getQ, dblMax])]
    simp
  exact ⟨hc, (p_gradient_weighted_average [1] [1] [0] [[0,0,0,0,0,0,0,0,1,0,0,0]]
    [[0,0,0,0,0,0,0,0,0,0,0,0]] 8 hc).2 (by norm_num) (by norm_num)⟩

/-! ### 4.6 Line-search controller (`optimizer::back_tracking_line_search`)

`p_matrix` is a 12-value parameter vector; its arithmetic operators and
norms live outside `src/`.  Elementwise operators are modelled from the
spec (§4.6: "normalize by its matrix-norm, then divide element-wise by a
fixed per-parameter normalization matrix"); the two norms
(`matrix_norm`, `get_norma`) are abstracted as nonnegative-valued
function parameters.  The cost evaluation
(`decompose` + `get_texture_map` + `calc_cost` over the session's fixed
frames) is abstracted as one function `costF` of the parameter vector. -/

/-- `optimization_params`: current p-matrix, scalar cost, gradient. -/
structure OptParams where
  p : List ℚ
  cost : ℚ
  grads : List ℚ
deriving DecidableEq

/-- The `params` fields consumed by the two optimization loops
(`control_param`, `max_step_size`, `tau`, iteration caps, deltas...).
Their concrete values live in `optimizer.h`, outside `src/`. -/
structure LsParams where
  normalize_mat : List ℚ
  control_param : ℚ
  max_step_size : ℚ
  min_step_size : ℚ
  tau : ℚ
  max_back_track_iters : ℕ
  min_rgb_mat_delta : ℚ
  min_cost_delta : ℚ
  max_optimization_iters : ℕ
  max_K2DSM_iters : ℕ

/-- Modelled from the spec: `p_matrix::normalize` — elementwise division
of the 12 values by a scalar. -/
def pDivS (v : List ℚ) (s : ℚ) : List ℚ := v.map (· / s)

/-- Modelled from the spec: `p_matrix operator/` — elementwise division
by the per-parameter normalization matrix. -/
def pDivE (a b : List ℚ) : List ℚ := List.zipWith (· / ·) a b

/-- Modelled from the spec: `p_matrix operator*` with a scalar. -/
def pMulS (v : List ℚ) (s : ℚ) : List ℚ := v.map (· * s)

/-- Modelled from the spec: elementwise `p_matrix operator*`, used with
`.sum()` for the gradient/unit-gradient dot product. -/
def pMulE (a b : List ℚ) : List ℚ := List.zipWith (· * ·) a b

/-- Modelled from the spec: `p_matrix operator+` (elementwise). -/
def pAdd (a b : List ℚ) : List ℚ := List.zipWith (· + ·) a b

/-- Modelled from the spec: `p_matrix operator-` (elementwise). -/
def pSub (a b : List ℚ) : List ℚ := List.zipWith (· - ·) a b

/-- Modelled from the spec: `p_matrix::sum`. -/
def pSum (v : List ℚ) : ℚ := v.foldr (· + ·) 0

/-- Modelled from the spec: `calc_cost_per_vertex_diff` lives in the
external cost subsystem; per §4.6 the backtracking test compares the
"cost_difference" of the candidate against the current state, so it is
modelled as candidate cost minus current cost. -/
def costDiff (costF : List ℚ → ℚ) (pOld pNew : List ℚ) : ℚ := costF pNew - costF pOld

/-- The backtracking `while` loop (`optimizer.cpp:1467-1481`), with the
post-incremented `iter_count < max_back_track_iters` bound carried as
fuel.  State: current step size, current candidate parameters, current
cost difference. -/
def btls_go (P : LsParams) (costF : List ℚ → ℚ) (currP unit : List ℚ) (t : ℚ) :
    ℕ → ℚ → List ℚ → ℚ → ℚ × List ℚ × ℚ
  | 0, step, pNew, diff => (step, pNew, diff)
  | fuel + 1, step, pNew, diff =>
    if diff ≥ step * t ∧ |step| > P.min_step_size then
      let step' := P.tau * step
      let p' := pAdd currP (pMulS unit step')
      btls_go P costF currP unit t fuel step' p' (costDiff costF currP p')
    else (step, pNew, diff)

/-- The line-search computation up to (and including) the backtracking
loop (`optimizer.cpp:1429-1481`), returning the final
`(step_size, candidate p-matrix, diff, t)` used by the acceptance check. -/
def btls_final (P : LsParams) (mnorm : List ℚ → ℚ) (costF : List ℚ → ℚ)
    (curr : OptParams) : ℚ × List ℚ × ℚ × ℚ :=
  let gon := pDivS curr.grads (mnorm curr.grads)
  let grad := pDivE gon P.normalize_mat
  let grad_norm := mnorm grad
  let unit := pDivS grad grad_norm
  let t := pSum (pMulE (pMulS grad (-P.control_param)) unit)
  let step0 := P.max_step_size * grad_norm / mnorm unit
  let p0 := pAdd curr.p (pMulS unit step0)
  let d0 := costDiff costF curr.p p0
  let r := btls_go P costF curr.p unit t P.max_back_track_iters step0 p0 d0
  (r.1, r.2.1, r.2.2, t)

/-- `optimizer::back_tracking_line_search` (`optimizer.cpp:1429-1498`):
if even the final candidate fails the sufficient-decrease test
(`diff >= step_size * t`), the input state is returned unchanged;
otherwise the accepted candidate with its evaluated cost (the
default-initialized gradient field of `new_params` is modelled as
zeros). -/
def back_tracking_line_search (P : LsParams) (mnorm : List ℚ → ℚ)
    (costF : List ℚ → ℚ) (curr : OptParams) : OptParams :=
  let r := btls_final P mnorm costF curr
  if r.2.2.1 ≥ r.1 * r.2.2.2 then curr
  else ⟨r.2.1, costF r.2.1, List.replicate 12 0⟩

theorem pSum_nonpos {v : List ℚ} (h : ∀ x ∈ v, x ≤ 0) : pSum v ≤ 0 := by
  unfold pSum
  induction v with
  | nil => simp
  | cons a tl ih =>
    rw [List.foldr_cons]
    have ha := h a (List.mem_cons_self a tl)
    have ht := ih fun x hx => h x (List.mem_cons_of_mem a hx)
    linarith

theorem zipWith_mul_map_self (f g : ℚ → ℚ) (l : List ℚ) :
    List.zipWith (· * ·) (l.map f) (l.map g) = l.map fun x => f x * g x := by
  induction l with
  | nil => rfl
  | cons a tl ih => simp [ih]

/-- The directional-derivative estimate `t` is never positive when the
control parameter and the abstract matrix norms are nonnegative. -/
theorem btls_t_nonpos (P : LsParams) (mnorm : List ℚ → ℚ) (grad : List ℚ)
    (hcp : 0 ≤ P.control_param) (hmn : ∀ v, 0 ≤ mnorm v) :
    pSum (pMulE (pMulS grad (-P.control_param)) (pDivS grad (mnorm grad))) ≤ 0 := by
  apply pSum_nonpos
  intro x hx
  unfold pMulE pMulS pDivS at hx
  rw [zipWith_mul_map_self] at hx
  rw [List.mem_map] at hx
  obtain ⟨a, _, rfl⟩ := hx
  have h1 : a * -P.control_param * (a / mnorm grad) = -(P.control_param * (a * a / mnorm grad)) := by
    ring
  rw [h1, neg_nonpos]
  exact mul_nonneg hcp (div_nonneg (mul_self_nonneg a) (hmn grad))

/-- The backtracking loop keeps the step size nonnegative. -/
theorem btls_go_fst_nonneg (P : LsParams) (costF : List ℚ → ℚ)
    (currP unit : List ℚ) (t : ℚ) (fuel : ℕ) (step : ℚ) (pNew : List ℚ) (diff : ℚ)
    (htau : 0 ≤ P.tau) (hs : 0 ≤ step) :
    0 ≤ (btls_go P costF currP unit t fuel step pNew diff).1 := by
  induction fuel generalizing step pNew diff with
  | zero => exact hs
  | succ m ih =>
    rw [btls_go]
    split
    · exact ih _ _ _ (mul_nonneg htau hs)
    · exact hs

/-- The backtracking loop keeps the diff equal to the
candidate-minus-current cost difference. -/
theorem btls_go_diff (P : LsParams) (costF : List ℚ → ℚ)
    (currP unit : List ℚ) (t : ℚ) (fuel : ℕ) (step : ℚ) (pNew : List ℚ) (diff : ℚ)
    (hd : diff = costDiff costF currP pNew) :
    (btls_go P costF currP unit t fuel step pNew diff).2.2
      = costDiff costF currP (btls_go P costF currP unit t fuel step pNew diff).2.1 := by
  induction fuel generalizing step pNew diff with
  | zero => exact hd
  | succ m ih =>
    rw [btls_go]
    split
    · exact ih _ _ _ rfl
    · exact hd

/-- **C2.** For every invocation of the backtracking line search with a
consistent input state (its cost field equals the cost of its
parameters) and the nonnegative configuration constants: the returned
state's cost never exceeds the input state's cost, and whenever the final
candidate still fails the sufficient-decrease test (no step was accepted
within the backtracking bounds), the input optimization state is returned
unchanged. -/
theorem line_search_never_increases_cost (P : LsParams) (mnorm : List ℚ → ℚ)
    (costF : List ℚ → ℚ) (curr : OptParams)
    (hcost : curr.cost = costF curr.p)
    (hcp : 0 ≤ P.control_param) (htau : 0 ≤ P.tau) (hms : 0 ≤ P.max_step_size)
    (hmn : ∀ v, 0 ≤ mnorm v) :
    (back_tracking_line_search P mnorm costF curr).cost ≤ curr.cost
    ∧ ((btls_final P mnorm costF curr).2.2.1
          ≥ (btls_final P mnorm costF curr).1 * (btls_final P mnorm costF curr).2.2.2
        → back_tracking_line_search P mnorm costF curr = curr) := by
  have ht : (btls_final P mnorm costF curr).2.2.2 ≤ 0 := by
    simp only [btls_final]
    exact btls_t_nonpos P mnorm _ hcp hmn
  have hstep : 0 ≤ (btls_final P mnorm costF curr).1 := by
    simp only [btls_final]
    exact btls_go_fst_nonneg _ _ _ _ _ _ _ _ _ htau
      (div_nonneg (mul_nonneg hms (hmn _)) (hmn _))
  have hdiff : (btls_final P mnorm costF curr).2.2.1
      = costDiff costF curr.p (btls_final P mnorm costF curr).2.1 := by
    simp only [btls_final]
    exact btls_go_diff _ _ _ _ _ _ _ _ _ rfl
  constructor
  · simp only [back_tracking_line_search]
    split
    · exact le_refl _
    · rename_i hacc
      rw [not_le] at hacc
      have hprod : (btls_final P mnorm costF curr).1 * (btls_final P mnorm costF curr).2.2.2 ≤ 0 :=
        mul_nonpos_of_nonneg_of_nonpos hstep ht
      have hlt : costF (btls_final P mnorm costF curr).2.1 - costF curr.p < 0 := by
        have h2 := lt_of_lt_of_le hacc hprod
        rw [hdiff] at h2
        simpa [costDiff] using h2
      show costF (btls_final P mnorm costF curr).2.1 ≤ curr.cost
      rw [hcost]
      linarith
  · intro hge
    simp only [back_tracking_line_search]
    rw [if_pos hge]

/-- Witness for C2 at a degenerate concrete configuration (all-zero
gradient, constant cost, zero norms). -/
theorem line_search_never_increases_cost_witness :
    ((0:ℚ) = (fun _ : List ℚ => (0:ℚ)) ([] : List ℚ))
    ∧ (back_tracking_line_search ⟨[], 1/2, 1, 0, 1/2, 3, 1, 1, 50, 5⟩
        (fun _ => 0) (fun _ => 0) ⟨[], 0, []⟩).cost ≤ (⟨[], 0, []⟩ : OptParams).cost := by
  refine ⟨rfl, ?_⟩
  exact (line_search_never_increases_cost ⟨[], 1/2, 1, 0, 1/2, 3, 1, 1, 50, 5⟩
    (fun _ => 0) (fun _ => 0) ⟨[], 0, []⟩ rfl (by norm_num) (by norm_num) (by norm_num)
    (fun v => le_refl 0)).1

/-! ### 4.7 Inner refinement loop (`optimizer::optimize_p`) and outer
cycle loop (`optimizer::optimize`)

External collaborators abstracted as parameters:
`cg` = `calc_cost_and_grad` (depends on the current vertex set),
`decompose` = p-matrix decomposition, `cpm` = `calib::calc_p_mat`,
`conv` = `k_to_DSM::convert_new_k_to_DSM` (returns a DSM candidate and a
recomputed vertex set), `clip` = `clip_ac_scaling`, `vnorm` =
`p_matrix::get_norma`. -/

/-- A camera-space 3D vertex (`double3`). -/
abbrev V3 := ℚ × ℚ × ℚ

/-- The calibration model fields the optimizer touches
(`calib`: intrinsic matrix, distortion, extrinsics). -/
structure Calib where
  fx : ℚ
  fy : ℚ
  ppx : ℚ
  ppy : ℚ
  coeffs : List ℚ
  rot : List ℚ
  k_trans : List ℚ
deriving DecidableEq

/-- Depth intrinsics (`rs2_intrinsics_double`) fields used here. -/
structure Intrin where
  fx : ℚ
  fy : ℚ
  ppx : ℚ
  ppy : ℚ
deriving DecidableEq

/-- DSM (secondary calibration model) parameters, kept abstract. -/
structure Dsm where
  vals : List ℚ
deriving DecidableEq

/-- `optimizer::get_new_z_intrinsics_from_new_calib`
(`optimizer.cpp:802-810`). -/
def get_new_z_intrinsics_from_new_calib (orig : Intrin) (newC origC : Calib) : Intrin :=
  { orig with fx := orig.fx / newC.fx * origC.fx, fy := orig.fy / newC.fy * origC.fy }


/-- The `curr` state recomputed at the top of each `optimize_p` iteration
(`optimizer.cpp:1515-1517`): the incoming parameters with cost and
gradient re-evaluated by `calc_cost_and_grad`. -/
def inner_curr (cg : Calib → List ℚ → ℚ × List ℚ) (rgb : Calib) (curr0 : OptParams) :
    OptParams :=
  ⟨curr0.p, (cg rgb curr0.p).1, (cg rgb curr0.p).2⟩

/-- `params_new = back_tracking_line_search(curr)` at the top of the
inner loop (`optimizer.cpp:1528`). -/
def inner_step (P : LsParams) (mnorm costF : List ℚ → ℚ)
    (cg : Calib → List ℚ → ℚ × List ℚ) (rgb : Calib) (curr0 : OptParams) : OptParams :=
  back_tracking_line_search P mnorm costF (inner_curr cg rgb curr0)

/-- The `while (1)` loop of `optimize_p` (`optimizer.cpp:1510-1560`):
recompute cost and gradient, line-search, then stop when the parameter
step norm or the absolute cost change falls below its minimum delta, or
when the incremented iteration count reaches `maxIter`; otherwise
continue from the line-search result and its decomposed calibration.
The structural `fuel` argument stands for `maxIter - n`, the number of
continuations the source's own `++n_iterations >= max` check still
allows: when it is exhausted that check necessarily fires, so the
`fuel = 0` case returns through it, mirroring the source. -/
def optimize_p_go (P : LsParams) (mnorm costF : List ℚ → ℚ)
    (cg : Calib → List ℚ → ℚ × List ℚ) (vnorm : List ℚ → ℚ) (dec : List ℚ → Calib)
    (maxIter : ℕ) : ℕ → ℕ → Calib → OptParams → ℕ × OptParams
  | 0, n, rgb, curr0 =>
    if vnorm (pSub (inner_step P mnorm costF cg rgb curr0).p (inner_curr cg rgb curr0).p)
        < P.min_rgb_mat_delta then
      (n, inner_step P mnorm costF cg rgb curr0)
    else if |(inner_step P mnorm costF cg rgb curr0).cost - (inner_curr cg rgb curr0).cost|
        < P.min_cost_delta then
      (n, inner_step P mnorm costF cg rgb curr0)
    else (n + 1, inner_step P mnorm costF cg rgb curr0)
  | fuel + 1, n, rgb, curr0 =>
    if vnorm (pSub (inner_step P mnorm costF cg rgb curr0).p (inner_curr cg rgb curr0).p)
        < P.min_rgb_mat_delta then
      (n, inner_step P mnorm costF cg rgb curr0)
    else if |(inner_step P mnorm costF cg rgb curr0).cost - (inner_curr cg rgb curr0).cost|
        < P.min_cost_delta then
      (n, inner_step P mnorm costF cg rgb curr0)
    else if maxIter ≤ n + 1 then (n + 1, inner_step P mnorm costF cg rgb curr0)
    else
      optimize_p_go P mnorm costF cg vnorm dec maxIter fuel (n + 1)
        (dec (inner_step P mnorm costF cg rgb curr0).p) (inner_step P mnorm costF cg rgb curr0)

/-- Result of `optimize_p`: the returned iteration count and the three
by-reference outputs (`params_new`, `new_rgb_calib`, `new_z_k`). -/
structure OptimizePOut where
  nIters : ℕ
  params_new : OptParams
  rgb : Calib
  zK : Intrin
deriving DecidableEq

/-- `optimizer::optimize_p` (`optimizer.cpp:1500-1578`): run the inner
loop (entered with `n_iterations = 0`, so with `max_optimization_iters`
remaining continuations), then recompose the output — `new_rgb_calib` is
decomposed from the final parameters, the new depth intrinsics are
derived, and the horizontal/vertical focal lengths are overwritten with
`_original_calibration`'s before the final p-matrix is rebuilt. -/
def optimize_p (P : LsParams) (mnorm costF : List ℚ → ℚ)
    (cg : Calib → List ℚ → ℚ × List ℚ) (vnorm : List ℚ → ℚ) (dec : List ℚ → Calib)
    (cpm : Calib → List ℚ) (origIntr : Intrin) (origFx origFy : ℚ)
    (params_curr : OptParams) (rgb0 : Calib) : OptimizePOut :=
  let r := optimize_p_go P mnorm costF cg vnorm dec P.max_optimization_iters
    P.max_optimization_iters 0 rgb0 params_curr
  let newRgb := dec r.2.p
  let origRgb := dec params_curr.p
  let zK := get_new_z_intrinsics_from_new_calib origIntr newRgb origRgb
  let newRgb2 := { newRgb with fx := origFx, fy := origFy }
  ⟨r.1, { r.2 with p := cpm newRgb2 }, newRgb2, zK⟩

/-- The outer-loop baseline state: last accepted parameters, calibration,
depth intrinsics, DSM candidate, the last accepted cost, and the
session's current vertex set (`_z.vertices`, which the cycle body
overwrites even when its candidate is later discarded). -/
structure OuterState where
  new_params : OptParams
  new_calib : Calib
  new_k : Intrin
  new_dsm : Dsm
  last_cost : ℚ
  verts : List V3
deriving DecidableEq

/-- One outer-cycle candidate (`optimizer.cpp:1610-1626`): convert the
baseline depth intrinsics to a DSM candidate plus recomputed vertices,
then re-run `optimize_p` from the baseline parameters and calibration
over the new vertex set. -/
def cycle_candidate (P : LsParams) (mnorm : List ℚ → ℚ)
    (costF : List V3 → List ℚ → ℚ) (cg : List V3 → Calib → List ℚ → ℚ × List ℚ)
    (vnorm : List ℚ → ℚ) (dec : List ℚ → Calib) (cpm : Calib → List ℚ)
    (origIntr : Intrin) (origFx origFy : ℚ) (conv : Intrin → List V3 → Dsm × List V3)
    (st : OuterState) : OptimizePOut :=
  optimize_p P mnorm (costF (conv st.new_k st.verts).2) (cg (conv st.new_k st.verts).2)
    vnorm dec cpm origIntr origFx origFy st.new_params st.new_calib

/-- The `while (cycle < _params.max_K2DSM_iters)` loop of `optimize`
(`optimizer.cpp:1606-1636`): a cycle candidate with `cost < last_cost`
BREAKS the loop and is discarded (only the session vertex set it already
overwrote survives); otherwise the candidate becomes the new baseline and
`last_cost` becomes its cost.  The structural `fuel` argument stands for
`maxC - cycle` (the loop guard `cycle < maxC` is false exactly when it is
exhausted); the second returned component counts executed cycle bodies
(instrumentation only). -/
def optimize_outer_go (P : LsParams) (mnorm : List ℚ → ℚ)
    (costF : List V3 → List ℚ → ℚ) (cg : List V3 → Calib → List ℚ → ℚ × List ℚ)
    (vnorm : List ℚ → ℚ) (dec : List ℚ → Calib) (cpm : Calib → List ℚ)
    (origIntr : Intrin) (origFx origFy : ℚ)
    (conv : Intrin → List V3 → Dsm × List V3) (maxC : ℕ) :
    ℕ → ℕ → ℕ → OuterState → ℕ × ℕ × OuterState
  | 0, cycle, k, st => (cycle, k, st)
  | fuel + 1, cycle, k, st =>
    if cycle < maxC then
      if (cycle_candidate P mnorm costF cg vnorm dec cpm origIntr origFx origFy conv
          st).params_new.cost < st.last_cost then
        (cycle + 1, k + 1, { st with verts := (conv st.new_k st.verts).2 })
      else
        optimize_outer_go P mnorm costF cg vnorm dec cpm origIntr origFx origFy conv maxC
          fuel (cycle + 1) (k + 1)
          ⟨(cycle_candidate P mnorm costF cg vnorm dec cpm origIntr origFx origFy conv
              st).params_new,
            (cycle_candidate P mnorm costF cg vnorm dec cpm origIntr origFx origFy conv st).rgb,
            (cycle_candidate P mnorm costF cg vnorm dec cpm origIntr origFx origFy conv st).zK,
            (conv st.new_k st.verts).1,
            (cycle_candidate P mnorm costF cg vnorm dec cpm origIntr origFx origFy conv
              st).params_new.cost,
            (conv st.new_k st.verts).2⟩
    else (cycle, k, st)

/-- Result of `optimize`: the first inner run's iteration count (the
function's return value), the reported calibration and DSM (pre- and
post-clip), the final accepted parameters, and instrumentation counters. -/
structure OptimizeOut where
  nIters : ℕ
  finalParams : OptParams
  finalCalib : Calib
  finalDsmCand : Dsm
  finalDsm : Dsm
  cycles : ℕ
  bodyRuns : ℕ
deriving DecidableEq

/-- `optimizer::optimize` (`optimizer.cpp:1580-1644`): normalize the
original calibration through its own p-matrix (line 1584), evaluate the
initial cost, run `optimize_p` once, then run the outer cycle loop from
`cycle = 1` (so with `max_K2DSM_iters - 1` remaining cycles); the
reported calibration is the last accepted baseline's and the reported
DSM is the clipped last accepted DSM candidate. -/
def optimize (P : LsParams) (mnorm : List ℚ → ℚ)
    (costF : List V3 → List ℚ → ℚ) (cg : List V3 → Calib → List ℚ → ℚ × List ℚ)
    (vnorm : List ℚ → ℚ) (decompose : List ℚ → Calib → Calib) (cpm : Calib → List ℚ)
    (conv : Intrin → List V3 → Dsm × List V3) (clip : Dsm → Dsm → Dsm)
    (origIntr : Intrin) (origCalib : Calib) (verts0 : List V3) (dsm0 : Dsm) : OptimizeOut :=
  let p0 := cpm origCalib
  let origC := decompose p0 origCalib
  let dec := fun p => decompose p origC
  let r0 := cg verts0 (decompose p0 origC) p0
  let params_curr : OptParams := ⟨p0, r0.1, r0.2⟩
  let last_cost := r0.1
  let op1 := optimize_p P mnorm (costF verts0) (cg verts0) vnorm dec cpm origIntr
    origC.fx origC.fy params_curr origC
  let st0 : OuterState := ⟨op1.params_new, op1.rgb, op1.zK, dsm0, last_cost, verts0⟩
  let r := optimize_outer_go P mnorm costF cg vnorm dec cpm origIntr origC.fx origC.fy
    conv P.max_K2DSM_iters (P.max_K2DSM_iters - 1) 1 0 st0
  ⟨op1.nIters, r.2.2.new_params, r.2.2.new_calib, r.2.2.new_dsm,
    clip dsm0 r.2.2.new_dsm, r.1, r.2.1⟩

/-- The inner loop's returned iteration count never exceeds the cap,
provided the loop was entered below the cap. -/
theorem optimize_p_go_bound (P : LsParams) (mnorm costF : List ℚ → ℚ)
    (cg : Calib → List ℚ → ℚ × List ℚ) (vnorm : List ℚ → ℚ) (dec : List ℚ → Calib)
    (maxIter : ℕ) :
    ∀ (fuel n : ℕ) (rgb : Calib) (curr : OptParams), n < maxIter →
      (optimize_p_go P mnorm costF cg vnorm dec maxIter fuel n rgb curr).1 ≤ maxIter := by
  intro fuel
  induction fuel with
  | zero =>
    intro n rgb curr hn
    rw [optimize_p_go]
    split
    · show n ≤ maxIter
      omega
    · split
      · show n ≤ maxIter
        omega
      · show n + 1 ≤ maxIter
        omega
  | succ m ih =>
    intro n rgb curr hn
    rw [optimize_p_go]
    split
    · show n ≤ maxIter
      omega
    · split
      · show n ≤ maxIter
        omega
      · split
        · show n + 1 ≤ maxIter
          omega
        · rename_i h
          exact ih (n + 1) _ _ (by omega)

/-- The outer loop executes at most `fuel` further cycle bodies. -/
theorem optimize_outer_go_bound (P : LsParams) (mnorm : List ℚ → ℚ)
    (costF : List V3 → List ℚ → ℚ) (cg : List V3 → Calib → List ℚ → ℚ × List ℚ)
    (vnorm : List ℚ → ℚ) (dec : List ℚ → Calib) (cpm : Calib → List ℚ)
    (origIntr : Intrin) (origFx origFy : ℚ)
    (conv : Intrin → List V3 → Dsm × List V3) (maxC : ℕ) :
    ∀ (fuel cycle k : ℕ) (st : OuterState),
      (optimize_outer_go P mnorm costF cg vnorm dec cpm origIntr origFx origFy conv maxC
          fuel cycle k st).2.1 ≤ k + fuel := by
  intro fuel
  induction fuel with
  | zero =>
    intro cycle k st
    rw [optimize_outer_go]
    show k ≤ k + 0
    omega
  | succ m ih =>
    intro cycle k st
    rw [optimize_outer_go]
    split
    · split
      · show k + 1 ≤ k + (m + 1)
        omega
      · exact le_trans (ih (cycle + 1) (k + 1) _) (by omega)
    · show k ≤ k + (m + 1)
      omega

/-- **C7.** The inner refinement loop's iteration count never exceeds the
configured maximum (for any positive cap), the outer cycle loop never
executes more than the configured maximum number of cycle bodies, and the
inner loop stops immediately — returning its entry iteration count — as
soon as the parameter-step norm falls below the minimum delta. -/
theorem optimization_loop_bounds (P : LsParams) (mnorm : List ℚ → ℚ)
    (costF : List V3 → List ℚ → ℚ) (cg : List V3 → Calib → List ℚ → ℚ × List ℚ)
    (vnorm : List ℚ → ℚ) (decompose : List ℚ → Calib → Calib) (cpm : Calib → List ℚ)
    (conv : Intrin → List V3 → Dsm × List V3) (clip : Dsm → Dsm → Dsm)
    (origIntr : Intrin) (origCalib : Calib) (verts0 : List V3) (dsm0 : Dsm)
    (hmax : 1 ≤ P.max_optimization_iters) :
    (optimize P mnorm costF cg vnorm decompose cpm conv clip origIntr origCalib
        verts0 dsm0).nIters ≤ P.max_optimization_iters
    ∧ (optimize P mnorm costF cg vnorm decompose cpm conv clip origIntr origCalib
        verts0 dsm0).bodyRuns ≤ P.max_K2DSM_iters
    ∧ (∀ (costG : List ℚ → ℚ) (cgG : Calib → List ℚ → ℚ × List ℚ)
        (decG : List ℚ → Calib) (maxIter fuel n : ℕ) (rgb : Calib) (curr0 : OptParams),
        vnorm (pSub (inner_step P mnorm costG cgG rgb curr0).p
            (inner_curr cgG rgb curr0).p) < P.min_rgb_mat_delta →
        (optimize_p_go P mnorm costG cgG vnorm decG maxIter fuel n rgb curr0).1 = n) := by
  refine ⟨?_, ?_, ?_⟩
  · show (optimize_p_go P mnorm (costF verts0) (cg verts0) vnorm _
        P.max_optimization_iters P.max_optimization_iters 0 _ _).1 ≤ P.max_optimization_iters
    exact optimize_p_go_bound _ _ _ _ _ _ _ P.max_optimization_iters 0 _ _ hmax
  · show (optimize_outer_go P mnorm costF cg vnorm _ cpm origIntr _ _ conv
        P.max_K2DSM_iters (P.max_K2DSM_iters - 1) 1 0 _).2.1 ≤ P.max_K2DSM_iters
    exact le_trans
      (optimize_outer_go_bound _ _ _ _ _ _ _ _ _ _ _ P.max_K2DSM_iters
        (P.max_K2DSM_iters - 1) 1 0 _)
      (by omega)
  · intro costG cgG decG maxIter fuel n rgb curr0 h
    cases fuel with
    | zero => rw [optimize_p_go, if_pos h]
    | succ m => rw [optimize_p_go, if_pos h]

/-- Witness for C7 at a degenerate concrete configuration. -/
theorem optimization_loop_bounds_witness :
    1 ≤ (⟨[], 0, 0, 0, 0, 0, 1, 1, 1, 5⟩ : LsParams).max_optimization_iters
    ∧ (optimize ⟨[], 0, 0, 0, 0, 0, 1, 1, 1, 5⟩ (fun _ => 0) (fun _ _ => 0)
        (fun _ _ _ => (0, [])) (fun _ => 0) (fun _ c => c) (fun _ => [])
        (fun _ _ => (⟨[]⟩, [])) (fun _ d => d) ⟨1, 1, 0, 0⟩ ⟨1, 1, 0, 0, [], [], []⟩
        [] ⟨[]⟩).nIters ≤ 1 := by
  refine ⟨by norm_num, ?_⟩
  exact (optimization_loop_bounds ⟨[], 0, 0, 0, 0, 0, 1, 1, 1, 5⟩ (fun _ => 0) (fun _ _ => 0)
    (fun _ _ _ => (0, [])) (fun _ => 0) (fun _ c => c) (fun _ => [])
    (fun _ _ => (⟨[]⟩, [])) (fun _ d => d) ⟨1, 1, 0, 0⟩ ⟨1, 1, 0, 0, [], [], []⟩
    [] ⟨[]⟩ (by norm_num)).1

/-- `optimize_p` always reports a calibration whose focal lengths are the
ones it was told to force (`optimizer.cpp:1573-1574`). -/
theorem optimize_p_rgb_focal (P : LsParams) (mnorm costF : List ℚ → ℚ)
    (cg : Calib → List ℚ → ℚ × List ℚ) (vnorm : List ℚ → ℚ) (dec : List ℚ → Calib)
    (cpm : Calib → List ℚ) (origIntr : Intrin) (origFx origFy : ℚ)
    (params_curr : OptParams) (rgb0 : Calib) :
    (optimize_p P mnorm costF cg vnorm dec cpm origIntr origFx origFy
        params_curr rgb0).rgb.fx = origFx
    ∧ (optimize_p P mnorm costF cg vnorm dec cpm origIntr origFx origFy
        params_curr rgb0).rgb.fy = origFy :=
  ⟨rfl, rfl⟩

/-- Every baseline the outer loop can report keeps the forced focal
lengths, given the entry baseline has them. -/
theorem optimize_outer_go_focal (P : LsParams) (mnorm : List ℚ → ℚ)
    (costF : List V3 → List ℚ → ℚ) (cg : List V3 → Calib → List ℚ → ℚ × List ℚ)
    (vnorm : List ℚ → ℚ) (dec : List ℚ → Calib) (cpm : Calib → List ℚ)
    (origIntr : Intrin) (origFx origFy : ℚ)
    (conv : Intrin → List V3 → Dsm × List V3) (maxC : ℕ) :
    ∀ (fuel cycle k : ℕ) (st : OuterState),
      st.new_calib.fx = origFx → st.new_calib.fy = origFy →
      ((optimize_outer_go P mnorm costF cg vnorm dec cpm origIntr origFx origFy conv maxC
          fuel cycle k st).2.2.new_calib.fx = origFx
      ∧ (optimize_outer_go P mnorm costF cg vnorm dec cpm origIntr origFx origFy conv maxC
          fuel cycle k st).2.2.new_calib.fy = origFy) := by
  intro fuel
  induction fuel with
  | zero =>
    intro cycle k st hx hy
    rw [optimize_outer_go]
    exact ⟨hx, hy⟩
  | succ m ih =>
    intro cycle k st hx hy
    rw [optimize_outer_go]
    split
    · split
      · exact ⟨hx, hy⟩
      · exact ih (cycle + 1) (k + 1) _ rfl rfl
    · exact ⟨hx, hy⟩

/-- **C9.** For every run of the optimizer whose p-matrix decomposition
is consistent on the original calibration (decomposing the original
calibration's own p-matrix preserves its focal lengths — the §3
representation-consistency requirement on the external `decompose`), the
calibration the optimizer reports has horizontal and vertical focal
lengths exactly equal to the original input calibration's. -/
theorem optimize_preserves_focal_lengths (P : LsParams) (mnorm : List ℚ → ℚ)
    (costF : List V3 → List ℚ → ℚ) (cg : List V3 → Calib → List ℚ → ℚ × List ℚ)
    (vnorm : List ℚ → ℚ) (decompose : List ℚ → Calib → Calib) (cpm : Calib → List ℚ)
    (conv : Intrin → List V3 → Dsm × List V3) (clip : Dsm → Dsm → Dsm)
    (origIntr : Intrin) (origCalib : Calib) (verts0 : List V3) (dsm0 : Dsm)
    (hfx : (decompose (cpm origCalib) origCalib).fx = origCalib.fx)
    (hfy : (decompose (cpm origCalib) origCalib).fy = origCalib.fy) :
    (optimize P mnorm costF cg vnorm decompose cpm conv clip origIntr origCalib
        verts0 dsm0).finalCalib.fx = origCalib.fx
    ∧ (optimize P mnorm costF cg vnorm decompose cpm conv clip origIntr origCalib
        verts0 dsm0).finalCalib.fy = origCalib.fy := by
  constructor
  · simp only [optimize]
    refine Eq.trans ((optimize_outer_go_focal P mnorm costF cg vnorm _ cpm origIntr _ _ conv
      P.max_K2DSM_iters (P.max_K2DSM_iters - 1) 1 0 _ ?_ ?_).1) hfx
    · rfl
    · rfl
  · simp only [optimize]
    refine Eq.trans ((optimize_outer_go_focal P mnorm costF cg vnorm _ cpm origIntr _ _ conv
      P.max_K2DSM_iters (P.max_K2DSM_iters - 1) 1 0 _ ?_ ?_).2) hfy
    · rfl
    · rfl

/-- **C1 (amended).** A cycle's candidate is accepted as the new baseline
exactly while its cost does not drop below the last accepted baseline's
(the implementation's convention is that larger cost is better, so the
accepted costs never decrease); the loop stops on the first cycle whose
candidate cost is strictly lower than the baseline's, discards that
candidate (every baseline field — parameters, calibration, depth
intrinsics, DSM — is kept; only the session vertex set the body already
overwrote survives), and the previously accepted baseline is what the
loop reports. -/
theorem outer_cycle_acceptance (P : LsParams) (mnorm : List ℚ → ℚ)
    (costF : List V3 → List ℚ → ℚ) (cg : List V3 → Calib → List ℚ → ℚ × List ℚ)
    (vnorm : List ℚ → ℚ) (dec : List ℚ → Calib) (cpm : Calib → List ℚ)
    (origIntr : Intrin) (origFx origFy : ℚ)
    (conv : Intrin → List V3 → Dsm × List V3) (maxC : ℕ)
    (fuel cycle k : ℕ) (st : OuterState) :
    st.last_cost ≤ (optimize_outer_go P mnorm costF cg vnorm dec cpm origIntr origFx origFy
        conv maxC fuel cycle k st).2.2.last_cost
    ∧ (cycle < maxC →
        (cycle_candidate P mnorm costF cg vnorm dec cpm origIntr origFx origFy conv
            st).params_new.cost < st.last_cost →
        (optimize_outer_go P mnorm costF cg vnorm dec cpm origIntr origFx origFy conv maxC
            (fuel + 1) cycle k st).2.2
          = { st with verts := (conv st.new_k st.verts).2 }) := by
  constructor
  · induction fuel generalizing cycle k st with
    | zero =>
      rw [optimize_outer_go]
    | succ m ih =>
      rw [optimize_outer_go]
      split
      · split
        · exact le_refl _
        · rename_i hc hnc
          exact le_trans (not_lt.mp hnc) (ih (cycle + 1) (k + 1) _)
      · exact le_refl _
  · intro hcy hcand
    rw [optimize_outer_go, if_pos hcy, if_pos hcand]

/-- Witness for C9 with an identity decomposition. -/
theorem optimize_preserves_focal_lengths_witness :
    ((fun (_ : List ℚ) (c : Calib) => c) ([] : List ℚ) ⟨2, 3, 0, 0, [], [], []⟩).fx
        = (⟨2, 3, 0, 0, [], [], []⟩ : Calib).fx
    ∧ (optimize ⟨[], 0, 0, 0, 0, 0, 1, 1, 1, 5⟩ (fun _ => 0) (fun _ _ => 0)
        (fun _ _ _ => (0, [])) (fun _ => 0) (fun _ c => c) (fun _ => [])
        (fun _ _ => (⟨[]⟩, [])) (fun _ d => d) ⟨1, 1, 0, 0⟩ ⟨2, 3, 0, 0, [], [], []⟩
        [] ⟨[]⟩).finalCalib.fx = (⟨2, 3, 0, 0, [], [], []⟩ : Calib).fx := by
  refine ⟨rfl, ?_⟩
  exact (optimize_preserves_focal_lengths ⟨[], 0, 0, 0, 0, 0, 1, 1, 1, 5⟩ (fun _ => 0)
    (fun _ _ => 0) (fun _ _ _ => (0, [])) (fun _ => 0) (fun _ c => c) (fun _ => [])
    (fun _ _ => (⟨[]⟩, [])) (fun _ d => d) ⟨1, 1, 0, 0⟩ ⟨2, 3, 0, 0, [], [], []⟩
    [] ⟨[]⟩ rfl rfl).1

/-! Concrete instantiation for C1: the cost model gives the initial
vertex set cost 2 and every post-conversion vertex set cost 1, with all
norms zero and degenerate line-search parameters so every inner loop
stops immediately with the entry cost. -/

/-- C1 instance: configuration constants (empty normalization matrix,
zero steps, caps 1 and 5). -/
def cexP : LsParams := ⟨[], 0, 0, 0, 0, 0, 1, 1, 1, 5⟩

/-- C1 instance: original calibration. -/
def cexCalib : Calib := ⟨1, 1, 0, 0, [], [], []⟩

/-- C1 instance: depth intrinsics. -/
def cexIntr : Intrin := ⟨1, 1, 0, 0⟩

/-- C1 instance: the abstract cost — 2 on the initial (empty) vertex
set, 1 on any recomputed vertex set. -/
def cexCostF : List V3 → List ℚ → ℚ := fun v _ => if v = [] then 2 else 1

/-- C1 instance: `calc_cost_and_grad` with the same cost and a zero
gradient. -/
def cexCg : List V3 → Calib → List ℚ → ℚ × List ℚ :=
  fun v _ _ => (if v = [] then 2 else 1, [])

/-- C1 instance: the DSM conversion — a distinguishable DSM candidate
and a one-vertex recomputed set. -/
def cexConv : Intrin → List V3 → Dsm × List V3 := fun _ _ => (⟨[7]⟩, [(0, 0, 0)])

/-- C1 instance: the outer-loop state after the first `optimize_p` run
(baseline cost 2). -/
def cexSt0 : OuterState := ⟨⟨[], 2, []⟩, cexCalib, cexIntr, ⟨[]⟩, 2, []⟩

theorem cex_btls (c : ℚ) (p0 : List ℚ) :
    back_tracking_line_search cexP (fun _ => 0) (fun _ => c) ⟨p0, c, []⟩ = ⟨p0, c, []⟩ := by
  unfold back_tracking_line_search btls_final
  norm_num [pDivS, pDivE, pMulS, pMulE, pAdd, pSub, pSum, costDiff, cexP, btls_go]

theorem cex_inner_step (c : ℚ) (rgb : Calib) (curr0 : OptParams) :
    inner_step cexP (fun _ => 0) (fun _ => c) (fun _ _ => (c, [])) rgb curr0
      = ⟨curr0.p, c, []⟩ := by
  unfold inner_step inner_curr
  exact cex_btls c curr0.p

theorem cex_optimize_p (c : ℚ) (curr0 : OptParams) (rgb : Calib) :
    optimize_p cexP (fun _ => 0) (fun _ => c) (fun _ _ => (c, [])) (fun _ => 0)
      (fun _ => cexCalib) (fun _ => []) cexIntr 1 1 curr0 rgb
      = ⟨0, ⟨[], c, []⟩, cexCalib, cexIntr⟩ := by
  have hgo : optimize_p_go cexP (fun _ => 0) (fun _ => c) (fun _ _ => (c, []))
      (fun _ => 0) (fun _ => cexCalib) cexP.max_optimization_iters
      cexP.max_optimization_iters 0 rgb curr0 = (0, ⟨curr0.p, c, []⟩) := by
    rw [show cexP.max_optimization_iters = 1 from rfl]
    rw [optimize_p_go, cex_inner_step, if_pos (by norm_num [cexP])]
  unfold optimize_p
  rw [hgo]
  norm_num [get_new_z_intrinsics_from_new_calib, cexCalib, cexIntr]

/-- The first cycle's candidate in the C1 instance has cost 1. -/
theorem cex_candidate_cost :
    (cycle_candidate cexP (fun _ => 0) cexCostF cexCg (fun _ => 0) (fun _ => cexCalib)
        (fun _ => []) cexIntr 1 1 cexConv cexSt0).params_new.cost = 1 := by
  unfold cycle_candidate
  have h2 : (cexConv cexSt0.new_k cexSt0.verts).2 = [(0, 0, 0)] := rfl
  rw [h2]
  have hc : cexCostF [(0, 0, 0)] = fun _ => (1:ℚ) := by
    funext p
    norm_num [cexCostF]
  have hg : cexCg [(0, 0, 0)] = fun _ _ => ((1:ℚ), ([] : List ℚ)) := by
    funext cal p
    norm_num [cexCg]
  rw [hc, hg, cex_optimize_p 1]

/-- The C1 instance's outer loop stops on cycle 1, discards the cost-1
candidate, and keeps the cost-2 baseline (only the vertex set moves). -/
theorem cex_outer_result :
    optimize_outer_go cexP (fun _ => 0) cexCostF cexCg (fun _ => 0) (fun _ => cexCalib)
      (fun _ => []) cexIntr 1 1 cexConv 5 4 1 0 cexSt0
      = (2, 1, ⟨⟨[], 2, []⟩, cexCalib, cexIntr, ⟨[]⟩, 2, [(0, 0, 0)]⟩) := by
  rw [optimize_outer_go]
  rw [if_pos (by norm_num)]
  rw [if_pos (by rw [cex_candidate_cost]; norm_num [cexSt0])]
  norm_num [cexSt0, cexConv]

/-- **C1 counterexample.** On the concrete instance: the first cycle's
candidate has cost 1, strictly better than the accepted baseline's cost 2
under the specification's lower-cost-is-better convention (§8: "final
cost is lower than initial cost", "line search never increases cost"), so
the claim as stated requires this improving candidate to be accepted as
the new baseline — yet the loop stops on exactly this cycle, discards the
candidate, and reports the unchanged baseline parameters (cost 2). -/
theorem outer_cycle_claim_counterexample :
    (cycle_candidate cexP (fun _ => 0) cexCostF cexCg (fun _ => 0) (fun _ => cexCalib)
        (fun _ => []) cexIntr 1 1 cexConv cexSt0).params_new.cost < cexSt0.last_cost
    ∧ (optimize_outer_go cexP (fun _ => 0) cexCostF cexCg (fun _ => 0) (fun _ => cexCalib)
        (fun _ => []) cexIntr 1 1 cexConv 5 4 1 0 cexSt0).2.2.new_params
        = cexSt0.new_params
    ∧ (optimize_outer_go cexP (fun _ => 0) cexCostF cexCg (fun _ => 0) (fun _ => cexCalib)
        (fun _ => []) cexIntr 1 1 cexConv 5 4 1 0 cexSt0).2.2.new_params.cost
        ≠ (cycle_candidate cexP (fun _ => 0) cexCostF cexCg (fun _ => 0) (fun _ => cexCalib)
        (fun _ => []) cexIntr 1 1 cexConv cexSt0).params_new.cost := by
  refine ⟨?_, ?_, ?_⟩
  · rw [cex_candidate_cost]
    norm_num [cexSt0]
  · rw [cex_outer_result]
    rfl
  · rw [cex_outer_result, cex_candidate_cost]
    norm_num [cexSt0]

/-- Witness for C1's amended theorem at the concrete instance: the
lower-cost first-cycle candidate makes the loop stop and report the
entry baseline. -/
theorem outer_cycle_acceptance_witness :
    (1 < 5
    ∧ (cycle_candidate cexP (fun _ => 0) cexCostF cexCg (fun _ => 0) (fun _ => cexCalib)
        (fun _ => []) cexIntr 1 1 cexConv cexSt0).params_new.cost < cexSt0.last_cost)
    ∧ (optimize_outer_go cexP (fun _ => 0) cexCostF cexCg (fun _ => 0) (fun _ => cexCalib)
        (fun _ => []) cexIntr 1 1 cexConv 5 (3 + 1) 1 0 cexSt0).2.2
        = { cexSt0 with verts := (cexConv cexSt0.new_k cexSt0.verts).2 } := by
  have hcand : (cycle_candidate cexP (fun _ => 0) cexCostF cexCg (fun _ => 0)
      (fun _ => cexCalib) (fun _ => []) cexIntr 1 1 cexConv cexSt0).params_new.cost
      < cexSt0.last_cost := by
    rw [cex_candidate_cost]
    norm_num [cexSt0]
  exact ⟨⟨by norm_num, hcand⟩,
    (outer_cycle_acceptance cexP (fun _ => 0) cexCostF cexCg (fun _ => 0) (fun _ => cexCalib)
      (fun _ => []) cexIntr 1 1 cexConv 5 3 1 0 cexSt0).2 (by norm_num) hcand⟩

/-! ### 4.1/4.3/4.4 The `set_z_data` feature pipeline
(`optimizer.cpp:409-751`)

Images are flat row-major buffers embedded as index functions `ℕ → ℚ`.
`double sqrt` and the `atan2`-based angle computation are transcendental
and abstracted as function parameters; `section_per_pixel`, `pinv_3x3`
and `get_texture_map` are external collaborators, also abstracted. -/

/-- `horizontal_gradients` mask (`optimizer.cpp:80-82`), row-major. -/
def grad_mask_h : ℕ → ℕ → ℚ
  | 0, 0 => -1 | 0, 1 => -2 | 0, 2 => -1
  | 1, _ => 0
  | 2, 0 => 1 | 2, 1 => 2 | 2, 2 => 1
  | _, _ => 0

/-- `vertical_gradients` mask (`optimizer.cpp:91-93`), row-major. -/
def grad_mask_v : ℕ → ℕ → ℚ
  | 0, 0 => -1 | 0, 2 => 1
  | 1, 0 => -2 | 1, 2 => 2
  | 2, 0 => -1 | 2, 2 => 1
  | _, _ => 0

/-- 3×3 `convolution` (`optimizer.cpp:44-75`) with the `/8` of the
gradient dot product: the loops write only interior cells
(`mid` row `∈ [1, h-2]`, col `∈ [1, w-2]`, each exactly once); border
cells keep the zero initialization. -/
def convolution3 (mask : ℕ → ℕ → ℚ) (img : ℕ → ℚ) (w h idx : ℕ) : ℚ :=
  if 1 ≤ idx / w ∧ idx / w + 2 ≤ h ∧ 1 ≤ idx % w ∧ idx % w + 2 ≤ w then
    (∑ l ∈ Finset.range 3, ∑ k ∈ Finset.range 3,
      img ((idx / w - 1 + l) * w + (idx % w - 1 + k)) * mask l k) / 8
  else 0

/-- `set_margin` (`optimizer.cpp:220-239`): zero the 2nd and
second-to-last row and column. -/
def set_margin (g : ℕ → ℚ) (w h idx : ℕ) : ℚ :=
  if idx / w = 1 ∨ idx / w + 2 = h ∨ idx % w = 1 ∨ idx % w + 2 = w then 0 else g idx

/-- `sample_by_mask` (`optimizer.cpp:241-257`): order-preserving
compaction of `origin` by the boolean mask. -/
def sample_by_mask {α : Type} : List α → List Bool → List α
  | [], _ => []
  | _ :: _, [] => []
  | a :: tl, b :: mtl =>
    if b then a :: sample_by_mask tl mtl else sample_by_mask tl mtl

/-- `grid_xy`'s x grid (`optimizer.cpp:280-294`): 1-based column index
per flat pixel (the nested 1..h/1..w loops emit exactly row-major
order). -/
def grid_x (w h : ℕ) : List ℚ :=
  (List.range (w * h)).map fun idx => ((idx % w : ℕ) : ℚ) + 1

/-- `grid_xy`'s y grid: 1-based row index per flat pixel. -/
def grid_y (w h : ℕ) : List ℚ :=
  (List.range (w * h)).map fun idx => ((idx / w : ℕ) : ℚ) + 1

/-- The `(y, x)` interleaving loop building `_ir.valid_location_rc`
(`optimizer.cpp:472-480`), reading element `i` of both compacted lists. -/
def interleave_rc (ys xs : List ℚ) : ℕ → ℕ → List ℚ
  | _, 0 => []
  | i, m + 1 => ys.getD i 0 :: xs.getD i 0 :: interleave_rc ys xs (i + 1) m

/-- The nearest-angle fold of `get_direction2` (`optimizer.cpp:855-866`):
`closest` starts at `-1` and scans the map keys in ascending order. -/
def closest_angle (dirv : ℚ) : ℤ :=
  ([0, 45, 90, 135, 180, 225, 270, 315] : List ℤ).foldl
    (fun (closest : ℤ) (d : ℤ) =>
      if closest = -1 ∨ |dirv - (d : ℚ)| < |dirv - (closest : ℚ)| then d else closest)
    (-1)

/-- `angle_dir_map` lookup: each multiple of 45° to its direction index
(a missing key would value-initialize to `deg_0 = 0`, as `operator[]`
does). -/
def angle_to_dir (a : ℤ) : ℕ :=
  if a = 0 then 0 else if a = 45 then 1 else if a = 90 then 2 else if a = 135 then 3
  else if a = 180 then 4 else if a = 225 then 5 else if a = 270 then 6
  else if a = 315 then 7 else 0

/-- `optimizer::get_direction2` (`optimizer.cpp:847-869`), with the
`atan2`-degree computation (including the `< 0` shift and `fmod 360`)
abstracted as `angleF gy gx`. -/
def get_direction2 (angleF : ℚ → ℚ → ℚ) (gx gy : List ℚ) : List ℕ :=
  (List.range gx.length).map fun i =>
    angle_to_dir (closest_angle (angleF (gy.getD i 0) (gx.getD i 0)))

/-- The 8-entry `directions` table (`optimizer.cpp:504`). -/
def dir_table : ℕ → ℚ × ℚ
  | 0 => (0, 1) | 1 => (1, 1) | 2 => (1, 0) | 3 => (1, -1)
  | 4 => (0, -1) | 5 => (-1, -1) | 6 => (-1, 0) | _ => (-1, 1)

/-- `double vec[4] = { -2, -1, 0, 1 }` (`optimizer.cpp:513`). -/
def vecK : ℕ → ℚ
  | 0 => -2 | 1 => -1 | 2 => 0 | _ => 1

/-- One `local_region[k]` array (`optimizer.cpp:518-525`):
`loc_rc[i] + dir_per_pixel[i] * vec[k]` over the interleaved arrays. -/
def local_region (rc dpp : List ℚ) (k : ℕ) : List ℚ :=
  (List.range dpp.length).map fun i => getQ rc i + getQ dpp i * vecK k

/-- Flat index read by `interpolation` (`optimizer.cpp:315-318`):
`size_t(valid_width * idy + idx)` with `idx = x-1`, `idy = y-1`
(truncation of a nonnegative double = floor). -/
def interp_idx (xv yv : ℚ) (w : ℕ) : ℕ :=
  (Int.floor ((w : ℚ) * (yv - 1) + (xv - 1))).toNat

/-- `interpolation` (`optimizer.cpp:295-323`): for each of the `n` valid
pixels, read the image at the `dim` local-region positions (inner loop
over `k`), producing a flat list with `dim` entries per pixel. -/
def interpolation (img : ℕ → ℚ) (xs ys : ℕ → List ℚ) (dim n w : ℕ) : List ℚ :=
  (List.range n).flatMap fun i =>
    (List.range dim).map fun k => img (interp_idx (getQ (xs k) i) (getQ (ys k) i) w)

/-- `is_suppressed` (`optimizer.cpp:324-339`): per 4-tap profile,
`s3 >= s2 && s3 >= s4`. -/
def is_suppressed_list : List ℚ → ℕ → List Bool
  | _, 0 => []
  | le, n + 1 =>
    decide (getQ le 2 ≥ getQ le 1 ∧ getQ le 2 ≥ getQ le 3)
      :: is_suppressed_list (le.drop 4) n

/-- `depth_mean` (`optimizer.cpp:341-356`): per pixel, the mean of the
two `local_y` samples then the mean of the two `local_x` samples. -/
def depth_mean (lx ly : List ℚ) : List ℚ :=
  (List.range (lx.length / 2)).flatMap fun i =>
    [(getQ ly (2 * i) + getQ ly (2 * i + 1)) / 2,
     (getQ lx (2 * i) + getQ lx (2 * i + 1)) / 2]

/-- `sum_gradient_depth` (`optimizer.cpp:357-372`), with `sqrt`
abstracted: the depth gradient projected on the normalized direction,
absolute value. -/
def sum_gradient_depth (sqrtF : ℚ → ℚ) (grad dpp : List ℚ) : List ℚ :=
  (List.range (dpp.length / 2)).map fun i =>
    |getQ grad (2 * i) * (getQ dpp (2 * i) / sqrtF (|getQ dpp (2 * i)| + |getQ dpp (2 * i + 1)|))
      + getQ grad (2 * i + 1)
        * (getQ dpp (2 * i + 1) / sqrtF (|getQ dpp (2 * i)| + |getQ dpp (2 * i + 1)|))|

/-- `find_local_values_min` (`optimizer.cpp:392-408`): minimum of each
4-sample group. -/
def find_local_values_min (lv : List ℚ) : List ℚ :=
  (List.range (lv.length / 4)).map fun i =>
    min (getQ lv (4 * i)) (min (getQ lv (4 * i + 1)) (min (getQ lv (4 * i + 2)) (getQ lv (4 * i + 3))))

/-- `find_valid_depth_edges` (`optimizer.cpp:374-390`):
`zGradInDirection > gradZTh && isSupressed && zValuesForSubEdges > 0`. -/
def find_valid_depth_edges (gid : List ℚ) (isSup : List Bool) (vfs : List ℚ) (thr : ℚ) :
    List Bool :=
  (List.range gid.length).map fun i =>
    decide (getQ gid i > thr ∧ isSup.getD i false = true ∧ getQ vfs i > 0)

/-- `depth_filter` (`optimizer.cpp:259-278`): mask compaction iterating
columns then rows (all `set_z_data` call sites pass `width = 1`). -/
def depth_filter {α : Type} (d : α) (origin : List α) (mask : List Bool) (w h : ℕ) : List α :=
  (List.range w).flatMap fun j =>
    ((List.range h).filter fun i => mask.getD (i * w + j) false).map fun i =>
      origin.getD (i * w + j) d

/-- The inputs of `set_z_data` and its external collaborators:
depth/IR frames (flat, `w × h`), the abstracted `sqrt`/angle functions,
`section_per_pixel`'s flat section map, `pinv_3x3`'s inverted depth
K-matrix (flat 3×3), the projection of `get_texture_map` (modelled from
the spec §4.4 as a pointwise map over the vertices), and the parameters
`grad_ir_threshold`, `grad_z_threshold`, `max_sub_mm_z`,
`constant_weights` and the RGB resolution. -/
structure ZParams where
  w : ℕ
  h : ℕ
  irImg : ℕ → ℚ
  zImg : ℕ → ℚ
  sqrtF : ℚ → ℚ
  angleF : ℚ → ℚ → ℚ
  sectionF : ℕ → ℚ
  kpinv : ℕ → ℚ
  uvF : V3 → ℚ × ℚ
  gradIrThr : ℚ
  gradZThr : ℚ
  maxZ : ℚ
  cw : ℚ
  yuyW : ℚ
  yuyH : ℚ

/-- `_z.gradient_x = calc_vertical_gradient(frame)` with the margin
zeroed (`optimizer.cpp:430,436`). -/
def sz_zGx (zp : ZParams) : ℕ → ℚ :=
  set_margin (convolution3 grad_mask_v zp.zImg zp.w zp.h) zp.w zp.h

/-- `_z.gradient_y = calc_horizontal_gradient(frame)` with margin
(`optimizer.cpp:431,437`). -/
def sz_zGy (zp : ZParams) : ℕ → ℚ :=
  set_margin (convolution3 grad_mask_h zp.zImg zp.w zp.h) zp.w zp.h

/-- `_ir.gradient_x` with margin (`optimizer.cpp:432,438`). -/
def sz_irGx (zp : ZParams) : ℕ → ℚ :=
  set_margin (convolution3 grad_mask_v zp.irImg zp.w zp.h) zp.w zp.h

/-- `_ir.gradient_y` with margin (`optimizer.cpp:433,439`). -/
def sz_irGy (zp : ZParams) : ℕ → ℚ :=
  set_margin (convolution3 grad_mask_h zp.irImg zp.w zp.h) zp.w zp.h

/-- `_ir.edges = calc_intensity(gradient_x, gradient_y)`
(`optimizer.cpp:442`, recomputed from the margined gradients):
`sqrt(gx² + gy²)`. -/
def sz_irEdges (zp : ZParams) (idx : ℕ) : ℚ :=
  zp.sqrtF (sz_irGx zp idx ^ 2 + sz_irGy zp idx ^ 2)

/-- `_ir.valid_edge_pixels_by_ir` (`optimizer.cpp:444-445`):
`edges > grad_ir_threshold` per flat pixel. -/
def sz_maskIR (zp : ZParams) : List Bool :=
  (List.range (zp.w * zp.h)).map fun idx => decide (sz_irEdges zp idx > zp.gradIrThr)

/-- `_ir.valid_location_rc_x = sampleByMask(gridX, ...)`
(`optimizer.cpp:466`). -/
def sz_locx (zp : ZParams) : List ℚ := sample_by_mask (grid_x zp.w zp.h) (sz_maskIR zp)

/-- `_ir.valid_location_rc_y = sampleByMask(gridY, ...)`
(`optimizer.cpp:467`). -/
def sz_locy (zp : ZParams) : List ℚ := sample_by_mask (grid_y zp.w zp.h) (sz_maskIR zp)

/-- `_ir.valid_section_map` (`optimizer.cpp:468`), over the external
section map. -/
def sz_secv (zp : ZParams) : List ℚ :=
  sample_by_mask ((List.range (zp.w * zp.h)).map zp.sectionF) (sz_maskIR zp)

/-- `_ir.valid_gradient_x` (`optimizer.cpp:469`). -/
def sz_gxv (zp : ZParams) : List ℚ :=
  sample_by_mask ((List.range (zp.w * zp.h)).map (sz_irGx zp)) (sz_maskIR zp)

/-- `_ir.valid_gradient_y` (`optimizer.cpp:470`). -/
def sz_gyv (zp : ZParams) : List ℚ :=
  sample_by_mask ((List.range (zp.w * zp.h)).map (sz_irGy zp)) (sz_maskIR zp)

/-- The number of IR-valid pixels (`valid_location_rc_x.size()`). -/
def sz_n (zp : ZParams) : ℕ := (sz_locx zp).length

/-- `_ir.valid_location_rc` (`optimizer.cpp:472-480`): `(y, x)`
interleaved. -/
def sz_rc (zp : ZParams) : List ℚ := interleave_rc (sz_locy zp) (sz_locx zp) 0 (sz_n zp)

/-- `_ir.directions = get_direction2(...)` (`optimizer.cpp:489`). -/
def sz_dirs (zp : ZParams) : List ℕ := get_direction2 zp.angleF (sz_gxv zp) (sz_gyv zp)

/-- `_ir.direction_per_pixel` (`optimizer.cpp:505-512`): two table
components per pixel. -/
def sz_dpp (zp : ZParams) : List ℚ :=
  (sz_dirs zp).flatMap fun d => [(dir_table d).1, (dir_table d).2]

/-- `direction_per_pixel_x` (`optimizer.cpp:505,511`): first table
component per pixel. -/
def sz_dppx (zp : ZParams) : List ℚ := (sz_dirs zp).map fun d => (dir_table d).1

/-- `_ir.local_region_y[k]`: even (row) entries of `local_region[k]`
(`optimizer.cpp:526-534`). -/
def sz_lry (zp : ZParams) (k : ℕ) : List ℚ :=
  (List.range (sz_n zp)).map fun i => getQ (local_region (sz_rc zp) (sz_dpp zp) k) (2 * i)

/-- `_ir.local_region_x[k]`: odd (column) entries of `local_region[k]`. -/
def sz_lrx (zp : ZParams) (k : ℕ) : List ℚ :=
  (List.range (sz_n zp)).map fun i => getQ (local_region (sz_rc zp) (sz_dpp zp) k) (2 * i + 1)

/-- `_ir.local_edges = interpolation(_ir.edges, ...)`
(`optimizer.cpp:536`). -/
def sz_local_edges (zp : ZParams) : List ℚ :=
  interpolation (sz_irEdges zp) (sz_lrx zp) (sz_lry zp) 4 (sz_n zp) zp.w

/-- `_ir.is_supressed` (`optimizer.cpp:539`). -/
def sz_isSup (zp : ZParams) : List Bool := is_suppressed_list (sz_local_edges zp) (sz_n zp)

/-- The sub-pixel refinement loop outputs (`optimizer.cpp:558-593`). -/
def sz_subpix (zp : ZParams) : SubpixOut :=
  subpix_loop (sz_local_edges zp) (sz_rc zp) (sz_dpp zp) (sz_n zp)

/-- `_z.local_x = interpolation(_z.gradient_x, regions 1-2, ...)`
(`optimizer.cpp:595-597`). -/
def sz_local_x (zp : ZParams) : List ℚ :=
  interpolation (sz_zGx zp) (fun k => sz_lrx zp (k + 1)) (fun k => sz_lry zp (k + 1))
    2 (sz_n zp) zp.w

/-- `_z.local_y` (`optimizer.cpp:598`). -/
def sz_local_y (zp : ZParams) : List ℚ :=
  interpolation (sz_zGy zp) (fun k => sz_lrx zp (k + 1)) (fun k => sz_lry zp (k + 1))
    2 (sz_n zp) zp.w

/-- `_z.gradient = depth_mean(local_x, local_y)` (`optimizer.cpp:599`). -/
def sz_zgrad (zp : ZParams) : List ℚ := depth_mean (sz_local_x zp) (sz_local_y zp)

/-- `_z.grad_in_direction = sum_gradient_depth(...)`
(`optimizer.cpp:600`). -/
def sz_gid (zp : ZParams) : List ℚ := sum_gradient_depth zp.sqrtF (sz_zgrad zp) (sz_dpp zp)

/-- `_z.local_values = interpolation(_z.frame, ...)`
(`optimizer.cpp:601`). -/
def sz_localvals (zp : ZParams) : List ℚ :=
  interpolation zp.zImg (sz_lrx zp) (sz_lry zp) 4 (sz_n zp) zp.w

/-- `_z.values_for_subedges = find_local_values_min(...)`
(`optimizer.cpp:602`). -/
def sz_vfs (zp : ZParams) : List ℚ := find_local_values_min (sz_localvals zp)

/-- `_z.supressed_edges = find_valid_depth_edges(...)`
(`optimizer.cpp:615-618`). -/
def sz_supressed (zp : ZParams) : List Bool :=
  find_valid_depth_edges (sz_gid zp) (sz_isSup zp) (sz_vfs zp) zp.gradZThr

/-- A `set_z_data` stage filter: `depth_filter(out, origin, mask, 1,
mask.size())` (`optimizer.cpp:623-647` and `725-732`). -/
def dfilter (origin : List ℚ) (mask : List Bool) : List ℚ :=
  depth_filter 0 origin mask 1 mask.length

/-- `_z.grad_in_direction_valid` (`optimizer.cpp:623`). -/
def sz_grad_valid (zp : ZParams) : List ℚ := dfilter (sz_gid zp) (sz_supressed zp)

/-- `_z.valid_edge_sub_pixel_x` (`optimizer.cpp:624`). -/
def sz_vespx (zp : ZParams) : List ℚ :=
  dfilter (sz_subpix zp).edge_sub_pixel_x (sz_supressed zp)

/-- `_z.valid_edge_sub_pixel_y` (`optimizer.cpp:625`). -/
def sz_vespy (zp : ZParams) : List ℚ :=
  dfilter (sz_subpix zp).edge_sub_pixel_y (sz_supressed zp)

/-- `_z.sub_points` (`optimizer.cpp:626-634`): `(x-1, y-1, 1)` per
retained pixel. -/
def sz_sub_points (zp : ZParams) : List ℚ :=
  (List.range (sz_vespx zp).length).flatMap fun i =>
    [getQ (sz_vespx zp) i - 1, getQ (sz_vespy zp) i - 1, 1]

/-- `valid_values_for_subedges`, assigned back into
`_z.values_for_subedges` (`optimizer.cpp:635,649`). -/
def sz_validvals (zp : ZParams) : List ℚ := dfilter (sz_vfs zp) (sz_supressed zp)

/-- `_z.valid_direction_per_pixel` (`optimizer.cpp:636`). -/
def sz_vdppx (zp : ZParams) : List ℚ := dfilter (sz_dppx zp) (sz_supressed zp)

/-- `_z.valid_section_map` (`optimizer.cpp:637`). -/
def sz_vsec (zp : ZParams) : List ℚ := dfilter (sz_secv zp) (sz_supressed zp)

/-- `edited_ir_directions` (`optimizer.cpp:638-646`): direction index
`+1` (matlab alignment), folded by `-4` when above 4. -/
def sz_edited_dirs (zp : ZParams) : List ℚ :=
  (sz_dirs zp).map fun d => if ((d : ℚ) + 1) > 4 then (d : ℚ) + 1 - 4 else (d : ℚ) + 1

/-- `_z.valid_directions` (`optimizer.cpp:647`). -/
def sz_vdirs (zp : ZParams) : List ℚ := dfilter (sz_edited_dirs zp) (sz_supressed zp)

/-- `valid_edge_sub_pixel_x` after the `-1.0` transform
(`optimizer.cpp:675`). -/
def sz_vespx1 (zp : ZParams) : List ℚ := (sz_vespx zp).map fun x => x + (-1)

/-- `valid_edge_sub_pixel_y` after the `-1.0` transform
(`optimizer.cpp:676`). -/
def sz_vespy1 (zp : ZParams) : List ℚ := (sz_vespy zp).map fun x => x + (-1)

/-- `_z.vertices_all` (`optimizer.cpp:677-695`): back-projected
sub-points scaled by depth over `max_sub_mm_z`. -/
def sz_verts_all (zp : ZParams) : List V3 :=
  (List.range ((sz_sub_points zp).length / 3)).map fun i =>
    ((getQ (sz_sub_points zp) (3 * i) * zp.kpinv 0
        + getQ (sz_sub_points zp) (3 * i + 1) * zp.kpinv 1
        + getQ (sz_sub_points zp) (3 * i + 2) * zp.kpinv 2)
          * getQ (sz_validvals zp) i / zp.maxZ,
     (getQ (sz_sub_points zp) (3 * i) * zp.kpinv 3
        + getQ (sz_sub_points zp) (3 * i + 1) * zp.kpinv 4
        + getQ (sz_sub_points zp) (3 * i + 2) * zp.kpinv 5)
          * getQ (sz_validvals zp) i / zp.maxZ,
     (getQ (sz_sub_points zp) (3 * i) * zp.kpinv 6
        + getQ (sz_sub_points zp) (3 * i + 1) * zp.kpinv 7
        + getQ (sz_sub_points zp) (3 * i + 2) * zp.kpinv 8)
          * getQ (sz_validvals zp) i / zp.maxZ)

/-- `_z.uvmap = get_texture_map(vertices_all, ...)`
(`optimizer.cpp:696-698`).  Modelled from the spec: §4.4 "projects every
point through the current color-camera projection model ... to obtain a
2D color-image coordinate", i.e. a pointwise map. -/
def sz_uvmap (zp : ZParams) : List (ℚ × ℚ) := (sz_verts_all zp).map zp.uvF

/-- `_z.is_inside` (`optimizer.cpp:701-710`). -/
def sz_inside (zp : ZParams) : List Bool :=
  (sz_uvmap zp).map fun uv =>
    decide ((uv.1 ≥ 0 ∧ uv.1 ≤ zp.yuyW - 1) ∧ (uv.2 ≥ 0 ∧ uv.2 ≤ zp.yuyH - 1))

/-- `_z.valid_weights` (`optimizer.cpp:721-724`): the constant weight per
`is_inside` entry. -/
def sz_weights_all (zp : ZParams) : List ℚ := List.replicate (sz_inside zp).length zp.cw

/-- `_z.subpixels_x` (`optimizer.cpp:725`). -/
def sz_subpixels_x (zp : ZParams) : List ℚ := dfilter (sz_vespx1 zp) (sz_inside zp)

/-- `_z.subpixels_y` (`optimizer.cpp:726`). -/
def sz_subpixels_y (zp : ZParams) : List ℚ := dfilter (sz_vespy1 zp) (sz_inside zp)

/-- `_z.closest` (`optimizer.cpp:727`). -/
def sz_closest (zp : ZParams) : List ℚ := dfilter (sz_validvals zp) (sz_inside zp)

/-- `_z.grad_in_direction_inside` (`optimizer.cpp:728`). -/
def sz_grad_inside (zp : ZParams) : List ℚ := dfilter (sz_grad_valid zp) (sz_inside zp)

/-- `_z.directions` (`optimizer.cpp:729`). -/
def sz_directions (zp : ZParams) : List ℚ := dfilter (sz_vdirs zp) (sz_inside zp)

/-- `_z.vertices` (`optimizer.cpp:730`). -/
def sz_vertices (zp : ZParams) : List V3 :=
  depth_filter ((0 : ℚ), (0 : ℚ), (0 : ℚ)) (sz_verts_all zp) (sz_inside zp)
    1 (sz_inside zp).length

/-- `_z.section_map_depth_inside` (`optimizer.cpp:731`). -/
def sz_sections (zp : ZParams) : List ℚ := dfilter (sz_vsec zp) (sz_inside zp)

/-- `_z.weights` (`optimizer.cpp:732`). -/
def sz_weights (zp : ZParams) : List ℚ := dfilter (sz_weights_all zp) (sz_inside zp)

/-- `_z.subpixels_x_round` (`optimizer.cpp:738,742`):
`round(x + 1)` per retained sub-pixel column. -/
def sz_x_round (zp : ZParams) : List ℚ :=
  (sz_subpixels_x zp).map fun x => ((round (x + 1) : ℤ) : ℚ)

/-- `_z.subpixels_y_round` (`optimizer.cpp:739,741`). -/
def sz_y_round (zp : ZParams) : List ℚ :=
  (sz_subpixels_y zp).map fun x => ((round (x + 1) : ℤ) : ℚ)

/-- The flat indices written into `_z.relevant_pixels_image`
(`optimizer.cpp:744-750`): `(y - 1) * width + x - 1` per retained
sub-pixel, before the `size_t` cast. -/
def sz_writes (zp : ZParams) : List ℚ :=
  (List.range (sz_x_round zp).length).map fun i =>
    (getQ (sz_y_round zp) i - 1) * (zp.w : ℚ) + getQ (sz_x_round zp) i - 1

/-- With width 1 (every `set_z_data` call site), `depth_filter` is exactly
the order-preserving compaction by the mask's true indices. -/
theorem depth_filter_one {α : Type} (d : α) (origin : List α) (mask : List Bool) :
    depth_filter d origin mask 1 mask.length
      = ((List.range mask.length).filter fun i => mask.getD i false).map fun i =>
          origin.getD i d := by
  unfold depth_filter
  simp [show List.range 1 = [0] from rfl]

/-- **C6.** After `set_z_data` completes, the eight per-vertex attribute
arrays consumed by the cost/gradient stage (sub-pixel x and y, closest
depth value, direction index, weight, 3D vertex, section id,
gradient-in-direction) are all the compaction of their stage-1 parent by
the same `is_inside` mask — order-preserving, with index `i` of every
array coming from the same true-index of the mask — and therefore all
have identical length. -/
theorem parallel_arrays_aligned (zp : ZParams) :
    (sz_subpixels_x zp
        = ((List.range (sz_inside zp).length).filter fun i => (sz_inside zp).getD i false).map
            fun i => (sz_vespx1 zp).getD i 0)
    ∧ (sz_subpixels_y zp
        = ((List.range (sz_inside zp).length).filter fun i => (sz_inside zp).getD i false).map
            fun i => (sz_vespy1 zp).getD i 0)
    ∧ (sz_closest zp
        = ((List.range (sz_inside zp).length).filter fun i => (sz_inside zp).getD i false).map
            fun i => (sz_validvals zp).getD i 0)
    ∧ (sz_grad_inside zp
        = ((List.range (sz_inside zp).length).filter fun i => (sz_inside zp).getD i false).map
            fun i => (sz_grad_valid zp).getD i 0)
    ∧ (sz_directions zp
        = ((List.range (sz_inside zp).length).filter fun i => (sz_inside zp).getD i false).map
            fun i => (sz_vdirs zp).getD i 0)
    ∧ (sz_vertices zp
        = ((List.range (sz_inside zp).length).filter fun i => (sz_inside zp).getD i false).map
            fun i => (sz_verts_all zp).getD i ((0 : ℚ), (0 : ℚ), (0 : ℚ)))
    ∧ (sz_sections zp
        = ((List.range (sz_inside zp).length).filter fun i => (sz_inside zp).getD i false).map
            fun i => (sz_vsec zp).getD i 0)
    ∧ (sz_weights zp
        = ((List.range (sz_inside zp).length).filter fun i => (sz_inside zp).getD i false).map
            fun i => (sz_weights_all zp).getD i 0)
    ∧ (sz_subpixels_x zp).length = (sz_subpixels_y zp).length
    ∧ (sz_subpixels_y zp).length = (sz_closest zp).length
    ∧ (sz_closest zp).length = (sz_grad_inside zp).length
    ∧ (sz_grad_inside zp).length = (sz_directions zp).length
    ∧ (sz_directions zp).length = (sz_vertices zp).length
    ∧ (sz_vertices zp).length = (sz_sections zp).length
    ∧ (sz_sections zp).length = (sz_weights zp).length := by
  have h1 : sz_subpixels_x zp
      = ((List.range (sz_inside zp).length).filter fun i => (sz_inside zp).getD i false).map
          fun i => (sz_vespx1 zp).getD i 0 := depth_filter_one 0 _ _
  have h2 : sz_subpixels_y zp
      = ((List.range (sz_inside zp).length).filter fun i => (sz_inside zp).getD i false).map
          fun i => (sz_vespy1 zp).getD i 0 := depth_filter_one 0 _ _
  have h3 : sz_closest zp
      = ((List.range (sz_inside zp).length).filter fun i => (sz_inside zp).getD i false).map
          fun i => (sz_validvals zp).getD i 0 := depth_filter_one 0 _ _
  have h4 : sz_grad_inside zp
      = ((List.range (sz_inside zp).length).filter fun i => (sz_inside zp).getD i false).map
          fun i => (sz_grad_valid zp).getD i 0 := depth_filter_one 0 _ _
  have h5 : sz_directions zp
      = ((List.range (sz_inside zp).length).filter fun i => (sz_inside zp).getD i false).map
          fun i => (sz_vdirs zp).getD i 0 := depth_filter_one 0 _ _
  have h6 : sz_vertices zp
      = ((List.range (sz_inside zp).length).filter fun i => (sz_inside zp).getD i false).map
          fun i => (sz_verts_all zp).getD i ((0 : ℚ), (0 : ℚ), (0 : ℚ)) :=
    depth_filter_one ((0 : ℚ), (0 : ℚ), (0 : ℚ)) _ _
  have h7 : sz_sections zp
      = ((List.range (sz_inside zp).length).filter fun i => (sz_inside zp).getD i false).map
          fun i => (sz_vsec zp).getD i 0 := depth_filter_one 0 _ _
  have h8 : sz_weights zp
      = ((List.range (sz_inside zp).length).filter fun i => (sz_inside zp).getD i false).map
          fun i => (sz_weights_all zp).getD i 0 := depth_filter_one 0 _ _
  refine ⟨h1, h2, h3, h4, h5, h6, h7, h8, ?_, ?_, ?_, ?_, ?_, ?_, ?_⟩ <;>
    simp [h1, h2, h3, h4, h5, h6, h7, h8]

/-- `getD` of a `map` over `range` at an in-range index. -/
theorem getD_map_range {α : Type} (f : ℕ → α) (d : α) (m j : ℕ) (hj : j < m) :
    ((List.range m).map f).getD j d = f j := by
  rw [List.getD_eq_getElem _ _ (by simpa using hj)]
  simp

/-- An in-range `getQ` read is an element of the list. -/
theorem getQ_mem (l : List ℚ) (i : ℕ) (hi : i < l.length) : getQ l i ∈ l := by
  unfold getQ
  rw [List.getD_eq_getElem _ _ hi]
  exact List.getElem_mem _

/-- Gradient fields are zero outside the two-pixel interior frame:
`convolution` writes only the one-pixel interior and `set_margin` then
zeroes the second row/column on each side (`optimizer.cpp:44-75` and
`220-239`). -/
theorem margined_gradient_zero (mask : ℕ → ℕ → ℚ) (img : ℕ → ℚ) (w h idx : ℕ)
    (hout : ¬(2 ≤ idx / w ∧ idx / w + 3 ≤ h ∧ 2 ≤ idx % w ∧ idx % w + 3 ≤ w)) :
    set_margin (convolution3 mask img w h) w h idx = 0 := by
  unfold set_margin convolution3
  split
  · rfl
  · rename_i hm
    split
    · rename_i hin
      exfalso
      push_neg at hm
      omega
    · rfl

/-- An IR-valid pixel (edge magnitude above the nonnegative threshold)
lies strictly inside the two-pixel frame of the depth image: on the
frame both IR gradients are zero, so the edge magnitude is
`sqrt 0 = 0`, which never exceeds a nonnegative threshold
(`optimizer.cpp:430-445`). -/
theorem maskIR_interior (zp : ZParams) (hthr : 0 ≤ zp.gradIrThr)
    (hsqrt : zp.sqrtF 0 = 0) (idx : ℕ)
    (htrue : (sz_maskIR zp).getD idx false = true) :
    idx < zp.w * zp.h ∧ 2 ≤ idx / zp.w ∧ idx / zp.w + 3 ≤ zp.h
      ∧ 2 ≤ idx % zp.w ∧ idx % zp.w + 3 ≤ zp.w := by
  have hidx : idx < zp.w * zp.h := by
    by_contra hge
    have hlen : (sz_maskIR zp).length ≤ idx := by
      simp only [sz_maskIR, List.length_map, List.length_range]
      omega
    rw [List.getD_eq_default _ _ hlen] at htrue
    exact Bool.false_ne_true htrue
  rw [sz_maskIR, getD_map_range _ _ _ _ hidx] at htrue
  have hgt : sz_irEdges zp idx > zp.gradIrThr := of_decide_eq_true htrue
  refine ⟨hidx, ?_⟩
  by_contra hout
  have hx : sz_irGx zp idx = 0 := by
    rw [sz_irGx]; exact margined_gradient_zero _ _ _ _ _ hout
  have hy : sz_irGy zp idx = 0 := by
    rw [sz_irGy]; exact margined_gradient_zero _ _ _ _ _ hout
  rw [sz_irEdges, hx, hy] at hgt
  have h0 : zp.sqrtF (0 ^ 2 + 0 ^ 2) = 0 := by norm_num [hsqrt]
  rw [h0] at hgt
  exact absurd hthr (not_le.mpr hgt)

/-- `sample_by_mask` only emits entries of `origin` whose mask bit is
set (`optimizer.cpp:241-257`). -/
theorem sample_by_mask_mem (origin : List ℚ) :
    ∀ (mask : List Bool) (v : ℚ), v ∈ sample_by_mask origin mask →
      ∃ i, i < origin.length ∧ mask.getD i false = true ∧ v = getQ origin i := by
  induction origin with
  | nil => intro mask v hv; simp [sample_by_mask] at hv
  | cons a tl ih =>
    intro mask v hv
    cases mask with
    | nil => simp [sample_by_mask] at hv
    | cons b mtl =>
      simp only [sample_by_mask] at hv
      by_cases hb : b = true
      · rw [if_pos hb] at hv
        rcases List.mem_cons.mp hv with h | h
        · exact ⟨0, by simp, by simp [hb], by simp [getQ, h]⟩
        · obtain ⟨i, h1, h2, h3⟩ := ih mtl v h
          exact ⟨i + 1, by simpa using Nat.succ_lt_succ h1, by simpa using h2,
            by simpa [getQ] using h3⟩
      · rw [if_neg hb] at hv
        obtain ⟨i, h1, h2, h3⟩ := ih mtl v hv
        exact ⟨i + 1, by simpa using Nat.succ_lt_succ h1, by simpa using h2,
          by simpa [getQ] using h3⟩

/-- Every retained column location is a 1-based interior column:
`3 ≤ c` and `c + 2 ≤ w` (`optimizer.cpp:466`). -/
theorem sz_locx_bounds (zp : ZParams) (hthr : 0 ≤ zp.gradIrThr)
    (hsqrt : zp.sqrtF 0 = 0) (v : ℚ) (hv : v ∈ sz_locx zp) :
    ∃ c : ℕ, v = (c : ℚ) ∧ 3 ≤ c ∧ c + 2 ≤ zp.w := by
  obtain ⟨i, hi, hm, hval⟩ := sample_by_mask_mem _ _ _ hv
  have hiwh : i < zp.w * zp.h := by simpa [grid_x] using hi
  obtain ⟨-, _, _, hc1, hc2⟩ := maskIR_interior zp hthr hsqrt i hm
  refine ⟨i % zp.w + 1, ?_, by omega, by omega⟩
  rw [hval, show getQ (grid_x zp.w zp.h) i = ((i % zp.w : ℕ) : ℚ) + 1 from by
    rw [grid_x]; exact getQ_map_range _ _ _ hiwh]
  push_cast
  ring

/-- Every retained row location is a 1-based interior row:
`3 ≤ r` and `r + 2 ≤ h` (`optimizer.cpp:467`). -/
theorem sz_locy_bounds (zp : ZParams) (hthr : 0 ≤ zp.gradIrThr)
    (hsqrt : zp.sqrtF 0 = 0) (v : ℚ) (hv : v ∈ sz_locy zp) :
    ∃ r : ℕ, v = (r : ℚ) ∧ 3 ≤ r ∧ r + 2 ≤ zp.h := by
  obtain ⟨i, hi, hm, hval⟩ := sample_by_mask_mem _ _ _ hv
  have hiwh : i < zp.w * zp.h := by simpa [grid_y] using hi
  obtain ⟨-, hr1, hr2, _, _⟩ := maskIR_interior zp hthr hsqrt i hm
  refine ⟨i / zp.w + 1, ?_, by omega, by omega⟩
  rw [hval, show getQ (grid_y zp.w zp.h) i = ((i / zp.w : ℕ) : ℚ) + 1 from by
    rw [grid_y]; exact getQ_map_range _ _ _ hiwh]
  push_cast
  ring

/-- Even entries of the interleaved `(y, x)` list are the row
locations (`optimizer.cpp:472-480`). -/
theorem interleave_rc_getD_even (ys xs : List ℚ) :
    ∀ (m j i : ℕ), i < m →
      getQ (interleave_rc ys xs j m) (2 * i) = ys.getD (j + i) 0 := by
  intro m
  induction m with
  | zero => intro j i hi; omega
  | succ t ih =>
    intro j i hi
    cases i with
    | zero => simp [interleave_rc, getQ]
    | succ k =>
      have hk : k < t := by omega
      have H := ih (j + 1) k hk
      show getQ (ys.getD j 0 :: xs.getD j 0 :: interleave_rc ys xs (j + 1) t) (2 * (k + 1)) = _
      rw [show 2 * (k + 1) = (2 * k) + 1 + 1 from by omega]
      simp only [getQ, List.getD_cons_succ]
      simp only [getQ] at H
      rw [H, show j + 1 + k = j + (k + 1) from by omega]

/-- Odd entries of the interleaved `(y, x)` list are the column
locations. -/
theorem interleave_rc_getD_odd (ys xs : List ℚ) :
    ∀ (m j i : ℕ), i < m →
      getQ (interleave_rc ys xs j m) (2 * i + 1) = xs.getD (j + i) 0 := by
  intro m
  induction m with
  | zero => intro j i hi; omega
  | succ t ih =>
    intro j i hi
    cases i with
    | zero => simp [interleave_rc, getQ]
    | succ k =>
      have hk : k < t := by omega
      have H := ih (j + 1) k hk
      show getQ (ys.getD j 0 :: xs.getD j 0 :: interleave_rc ys xs (j + 1) t)
        (2 * (k + 1) + 1) = _
      rw [show 2 * (k + 1) + 1 = (2 * k + 1) + 1 + 1 from by omega]
      simp only [getQ, List.getD_cons_succ]
      simp only [getQ] at H
      rw [H, show j + 1 + k = j + (k + 1) from by omega]

/-- Entry `i` of `is_suppressed`'s result tests taps 2..4 of profile `i`
(`optimizer.cpp:324-339`). -/
theorem is_suppressed_getD :
    ∀ (n : ℕ) (le : List ℚ) (i : ℕ), i < n →
      (is_suppressed_list le n).getD i false
        = decide (getQ le (4 * i + 2) ≥ getQ le (4 * i + 1)
            ∧ getQ le (4 * i + 2) ≥ getQ le (4 * i + 3)) := by
  intro n
  induction n with
  | zero => intro le i hi; omega
  | succ t ih =>
    intro le i hi
    cases i with
    | zero => simp [is_suppressed_list]
    | succ k =>
      have hk : k < t := by omega
      have H := ih (le.drop 4) k hk
      simp only [is_suppressed_list, List.getD_cons_succ]
      rw [H]
      simp only [getQ, getD_drop0]
      have e1 : 4 + (4 * k + 1) = 4 * (k + 1) + 1 := by omega
      have e2 : 4 + (4 * k + 2) = 4 * (k + 1) + 2 := by omega
      have e3 : 4 + (4 * k + 3) = 4 * (k + 1) + 3 := by omega
      rw [e1, e2, e3]

/-- On a suppressed profile (`s3 ≥ s2` and `s3 ≥ s4`) the parabolic
sub-pixel step has magnitude at most one half. -/
theorem fraqStep_abs_le (s2 s3 s4 : ℚ) (h2 : s2 ≤ s3) (h4 : s4 ≤ s3) :
    |fraqStep s2 s3 s4| ≤ 1 / 2 := by
  unfold fraqStep
  split
  · norm_num
  · rename_i hden
    have hdlt : s4 + s2 - 2 * s3 < 0 := lt_of_le_of_ne (by linarith) hden
    have habs : |s4 - s2| ≤ -(s4 + s2 - 2 * s3) := abs_le.mpr ⟨by linarith, by linarith⟩
    rw [abs_div, abs_of_neg hdlt, abs_mul]
    rw [div_le_iff₀ (by linarith : (0 : ℚ) < -(s4 + s2 - 2 * s3))]
    have h12 : |(-(1 / 2) : ℚ)| = 1 / 2 := by norm_num
    rw [h12]
    linarith

/-- The catch-all row of the direction table. -/
theorem dir_table_seven (d : ℕ) : dir_table (d + 7) = (-1, 1) := rfl

/-- Both components of every quantized direction vector lie in
`[-1, 1]` (`optimizer.cpp:504`). -/
theorem dir_table_bound (d : ℕ) :
    |(dir_table d).1| ≤ 1 ∧ |(dir_table d).2| ≤ 1 := by
  rcases d with _ | _ | _ | _ | _ | _ | _ | d
  · constructor <;> norm_num [dir_table]
  · constructor <;> norm_num [dir_table]
  · constructor <;> norm_num [dir_table]
  · constructor <;> norm_num [dir_table]
  · constructor <;> norm_num [dir_table]
  · constructor <;> norm_num [dir_table]
  · constructor <;> norm_num [dir_table]
  · rw [show d + 1 + 1 + 1 + 1 + 1 + 1 + 1 = d + 7 from by omega, dir_table_seven]
    constructor <;> norm_num

/-- The flat pair-interleaved list built by `flatMap` reads its entries
`2i`, `2i+1` from element `i` of the base list. -/
theorem flatMap_pair_getD (f g : ℕ → ℚ) :
    ∀ (l : List ℕ) (i : ℕ), i < l.length →
      ∃ d : ℕ, getQ (l.flatMap fun x => [f x, g x]) (2 * i) = f d
        ∧ getQ (l.flatMap fun x => [f x, g x]) (2 * i + 1) = g d := by
  intro l
  induction l with
  | nil => intro i hi; simp at hi
  | cons a tl ih =>
    intro i hi
    have hcons : ((a :: tl).flatMap fun x => [f x, g x])
        = f a :: g a :: (tl.flatMap fun x => [f x, g x]) := by simp
    cases i with
    | zero => exact ⟨a, by simp [hcons, getQ], by simp [hcons, getQ]⟩
    | succ k =>
      have hk : k < tl.length := by simpa using hi
      obtain ⟨d, h1, h2⟩ := ih k hk
      refine ⟨d, ?_, ?_⟩
      · rw [show 2 * (k + 1) = (2 * k) + 1 + 1 from by omega, hcons]
        simp only [getQ, List.getD_cons_succ]
        simpa [getQ] using h1
      · rw [show 2 * (k + 1) + 1 = (2 * k + 1) + 1 + 1 from by omega, hcons]
        simp only [getQ, List.getD_cons_succ]
        simpa [getQ] using h2

/-- A pair-flatMap doubles the length. -/
theorem flatMap_pair_length (f g : ℕ → ℚ) (l : List ℕ) :
    (l.flatMap fun x => [f x, g x]).length = 2 * l.length := by
  induction l with
  | nil => rfl
  | cons a t ih =>
    simp only [List.flatMap_cons, List.length_append, List.length_cons, List.length_nil, ih]
    omega

/-- A triple-flatMap triples the length. -/
theorem flatMap_triple_length (f g k : ℕ → ℚ) (l : List ℕ) :
    (l.flatMap fun x => [f x, g x, k x]).length = 3 * l.length := by
  induction l with
  | nil => rfl
  | cons a t ih =>
    simp only [List.flatMap_cons, List.length_append, List.length_cons, List.length_nil, ih]
    omega

/-- `sample_by_mask` outputs have equal length whenever the origins
have equal length (the output length depends only on the mask and the
origin length). -/
theorem sample_by_mask_length_eq {α β : Type} :
    ∀ (o₁ : List α) (o₂ : List β) (mask : List Bool), o₁.length = o₂.length →
      (sample_by_mask o₁ mask).length = (sample_by_mask o₂ mask).length := by
  intro o₁
  induction o₁ with
  | nil =>
    intro o₂ mask h
    cases o₂ with
    | nil => rfl
    | cons b t => simp at h
  | cons a t ih =>
    intro o₂ mask h
    cases o₂ with
    | nil => simp at h
    | cons b t₂ =>
      cases mask with
      | nil => rfl
      | cons c mt =>
        have ht : t.length = t₂.length := by simpa using h
        simp only [sample_by_mask]
        split
        · simp [ih t₂ mt ht]
        · exact ih t₂ mt ht

/-- The sampled gradient-x list is as long as the sampled location
lists. -/
theorem sz_gxv_length (zp : ZParams) : (sz_gxv zp).length = sz_n zp := by
  rw [sz_gxv, sz_n, sz_locx]
  exact sample_by_mask_length_eq _ _ _ (by simp [grid_x])

/-- One direction index per IR-valid pixel. -/
theorem sz_dirs_length (zp : ZParams) : (sz_dirs zp).length = sz_n zp := by
  simp [sz_dirs, get_direction2, sz_gxv_length]

/-- Two interleaved direction components per IR-valid pixel. -/
theorem sz_dpp_length (zp : ZParams) : (sz_dpp zp).length = 2 * sz_n zp := by
  rw [sz_dpp, flatMap_pair_length, sz_dirs_length]

/-- One depth gradient magnitude per IR-valid pixel. -/
theorem sz_gid_length (zp : ZParams) : (sz_gid zp).length = sz_n zp := by
  simp only [sz_gid, sum_gradient_depth, List.length_map, List.length_range]
  rw [sz_dpp_length]
  omega

/-- One suppressed-edges flag per IR-valid pixel. -/
theorem sz_sup_length (zp : ZParams) : (sz_supressed zp).length = sz_n zp := by
  simp [sz_supressed, find_valid_depth_edges, sz_gid_length]

/-- The two valid sub-pixel coordinate lists have equal length. -/
theorem sz_vespxy_length (zp : ZParams) : (sz_vespx zp).length = (sz_vespy zp).length := by
  rw [sz_vespx, sz_vespy, dfilter, dfilter, depth_filter_one, depth_filter_one]
  simp

/-- `sub_points` holds three entries per retained pixel. -/
theorem sz_sub_points_length (zp : ZParams) :
    (sz_sub_points zp).length = 3 * (sz_vespx zp).length := by
  rw [sz_sub_points, flatMap_triple_length]
  simp

/-- The `is_inside` mask is as long as the retained sub-pixel lists. -/
theorem sz_inside_length (zp : ZParams) :
    (sz_inside zp).length = (sz_vespx zp).length := by
  simp only [sz_inside, sz_uvmap, List.length_map, sz_verts_all, List.length_range]
  rw [sz_sub_points_length]
  omega

/-- The rounded x and y coordinate lists have equal length. -/
theorem sz_round_length (zp : ZParams) :
    (sz_x_round zp).length = (sz_y_round zp).length := by
  simp only [sz_x_round, sz_y_round, List.length_map]
  rw [sz_subpixels_x, sz_subpixels_y, dfilter, dfilter, depth_filter_one, depth_filter_one]
  simp

/-- Every retained sub-pixel column coordinate lies in
`[5/2, w - 3/2]` (1-based): the base column is an interior column in
`[3, w-2]`, the direction component has magnitude at most 1, and the
suppression filter guarantees the parabolic step has magnitude at most
`1/2` (`optimizer.cpp:566-593,615-625`). -/
theorem sz_vespx_bounds (zp : ZParams) (hthr : 0 ≤ zp.gradIrThr)
    (hsqrt : zp.sqrtF 0 = 0) (v : ℚ) (hv : v ∈ sz_vespx zp) :
    5 / 2 ≤ v ∧ v ≤ (zp.w : ℚ) - 3 / 2 := by
  rw [sz_vespx, dfilter, depth_filter_one] at hv
  obtain ⟨j, hjmem, hval⟩ := List.mem_map.mp hv
  have hjfil := List.mem_filter.mp hjmem
  have hjrange : j < (sz_supressed zp).length := List.mem_range.mp hjfil.1
  have hjtrue : (sz_supressed zp).getD j false = true := by simpa using hjfil.2
  have hjn : j < sz_n zp := by rw [← sz_sup_length zp]; exact hjrange
  have hjg : j < (sz_gid zp).length := by rw [sz_gid_length]; exact hjn
  rw [sz_supressed, find_valid_depth_edges, getD_map_range _ _ _ _ hjg] at hjtrue
  have hsupJ := (of_decide_eq_true hjtrue).2.1
  rw [sz_isSup, is_suppressed_getD _ _ _ hjn] at hsupJ
  obtain ⟨h23, h43⟩ := of_decide_eq_true hsupJ
  have hesp : getQ (sz_subpix zp).edge_sub_pixel_x j
      = getQ (sz_rc zp) (2 * j + 1) + getQ (sz_dpp zp) (2 * j + 1)
          * fraqStep (getQ (sz_local_edges zp) (4 * j + 1))
              (getQ (sz_local_edges zp) (4 * j + 2))
              (getQ (sz_local_edges zp) (4 * j + 3)) := by
    rw [sz_subpix]
    exact subpix_loop_espx_getD _ _ _ _ _ hjn
  have hrc : getQ (sz_rc zp) (2 * j + 1) = getQ (sz_locx zp) j := by
    rw [sz_rc]
    have := interleave_rc_getD_odd (sz_locy zp) (sz_locx zp) (sz_n zp) 0 j hjn
    simpa [getQ] using this
  obtain ⟨c, hcv, hc3, hcw⟩ :=
    sz_locx_bounds zp hthr hsqrt _ (getQ_mem _ _ (by simpa [sz_n] using hjn))
  obtain ⟨d, hd1, hd2⟩ := flatMap_pair_getD (fun x => (dir_table x).1)
    (fun x => (dir_table x).2) (sz_dirs zp) j (by rw [sz_dirs_length]; exact hjn)
  have hdpp2 : getQ (sz_dpp zp) (2 * j + 1) = (dir_table d).2 := by
    rw [sz_dpp]; exact hd2
  have hdb := (dir_table_bound d).2
  have hfb := fraqStep_abs_le _ _ _ h23 h43
  have habs : |getQ (sz_dpp zp) (2 * j + 1)
      * fraqStep (getQ (sz_local_edges zp) (4 * j + 1))
          (getQ (sz_local_edges zp) (4 * j + 2))
          (getQ (sz_local_edges zp) (4 * j + 3))| ≤ 1 / 2 := by
    rw [abs_mul, hdpp2]
    have := mul_le_mul hdb hfb (abs_nonneg _) zero_le_one
    linarith
  have hterm := abs_le.mp habs
  have hvv : v = getQ (sz_subpix zp).edge_sub_pixel_x j := hval.symm
  rw [hvv, hesp, hrc, hcv]
  have hc3' : (3 : ℚ) ≤ (c : ℚ) := by exact_mod_cast hc3
  have hcw' : (c : ℚ) + 2 ≤ (zp.w : ℚ) := by exact_mod_cast hcw
  constructor <;> linarith [hterm.1, hterm.2]

/-- Every retained sub-pixel row coordinate lies in `[5/2, h - 3/2]`
(1-based), by the same argument as for columns. -/
theorem sz_vespy_bounds (zp : ZParams) (hthr : 0 ≤ zp.gradIrThr)
    (hsqrt : zp.sqrtF 0 = 0) (v : ℚ) (hv : v ∈ sz_vespy zp) :
    5 / 2 ≤ v ∧ v ≤ (zp.h : ℚ) - 3 / 2 := by
  rw [sz_vespy, dfilter, depth_filter_one] at hv
  obtain ⟨j, hjmem, hval⟩ := List.mem_map.mp hv
  have hjfil := List.mem_filter.mp hjmem
  have hjrange : j < (sz_supressed zp).length := List.mem_range.mp hjfil.1
  have hjtrue : (sz_supressed zp).getD j false = true := by simpa using hjfil.2
  have hjn : j < sz_n zp := by rw [← sz_sup_length zp]; exact hjrange
  have hjg : j < (sz_gid zp).length := by rw [sz_gid_length]; exact hjn
  rw [sz_supressed, find_valid_depth_edges, getD_map_range _ _ _ _ hjg] at hjtrue
  have hsupJ := (of_decide_eq_true hjtrue).2.1
  rw [sz_isSup, is_suppressed_getD _ _ _ hjn] at hsupJ
  obtain ⟨h23, h43⟩ := of_decide_eq_true hsupJ
  have hesp : getQ (sz_subpix zp).edge_sub_pixel_y j
      = getQ (sz_rc zp) (2 * j) + getQ (sz_dpp zp) (2 * j)
          * fraqStep (getQ (sz_local_edges zp) (4 * j + 1))
              (getQ (sz_local_edges zp) (4 * j + 2))
              (getQ (sz_local_edges zp) (4 * j + 3)) := by
    rw [sz_subpix]
    exact subpix_loop_espy_getD _ _ _ _ _ hjn
  have hrc : getQ (sz_rc zp) (2 * j) = getQ (sz_locy zp) j := by
    rw [sz_rc]
    have := interleave_rc_getD_even (sz_locy zp) (sz_locx zp) (sz_n zp) 0 j hjn
    simpa [getQ] using this
  have hjy : j < (sz_locy zp).length := by
    rw [sz_locy]
    rw [sample_by_mask_length_eq (grid_y zp.w zp.h) (grid_x zp.w zp.h) _ (by simp [grid_x, grid_y])]
    simpa [sz_n, sz_locx] using hjn
  obtain ⟨r, hrv, hr3, hrh⟩ := sz_locy_bounds zp hthr hsqrt _ (getQ_mem _ _ hjy)
  obtain ⟨d, hd1, hd2⟩ := flatMap_pair_getD (fun x => (dir_table x).1)
    (fun x => (dir_table x).2) (sz_dirs zp) j (by rw [sz_dirs_length]; exact hjn)
  have hdpp1 : getQ (sz_dpp zp) (2 * j) = (dir_table d).1 := by
    rw [sz_dpp]; exact hd1
  have hdb := (dir_table_bound d).1
  have hfb := fraqStep_abs_le _ _ _ h23 h43
  have habs : |getQ (sz_dpp zp) (2 * j)
      * fraqStep (getQ (sz_local_edges zp) (4 * j + 1))
          (getQ (sz_local_edges zp) (4 * j + 2))
          (getQ (sz_local_edges zp) (4 * j + 3))| ≤ 1 / 2 := by
    rw [abs_mul, hdpp1]
    have := mul_le_mul hdb hfb (abs_nonneg _) zero_le_one
    linarith
  have hterm := abs_le.mp habs
  have hvv : v = getQ (sz_subpix zp).edge_sub_pixel_y j := hval.symm
  rw [hvv, hesp, hrc, hrv]
  have hr3' : (3 : ℚ) ≤ (r : ℚ) := by exact_mod_cast hr3
  have hrh' : (r : ℚ) + 2 ≤ (zp.h : ℚ) := by exact_mod_cast hrh
  constructor <;> linarith [hterm.1, hterm.2]

/-- After the `-1` shift and the `is_inside` filter, sub-pixel column
coordinates lie in `[3/2, w - 5/2]` (`optimizer.cpp:675,725`). -/
theorem sz_subpixels_x_bounds (zp : ZParams) (hthr : 0 ≤ zp.gradIrThr)
    (hsqrt : zp.sqrtF 0 = 0) (v : ℚ) (hv : v ∈ sz_subpixels_x zp) :
    3 / 2 ≤ v ∧ v ≤ (zp.w : ℚ) - 5 / 2 := by
  rw [sz_subpixels_x, dfilter, depth_filter_one] at hv
  obtain ⟨i, himem, rfl⟩ := List.mem_map.mp hv
  have hir : i < (sz_inside zp).length := List.mem_range.mp (List.mem_filter.mp himem).1
  have hiv : i < (sz_vespx zp).length := by rw [← sz_inside_length]; exact hir
  have h1 : (sz_vespx1 zp).getD i 0 = getQ (sz_vespx zp) i + (-1) := by
    rw [sz_vespx1, List.getD_eq_getElem _ _ (by simpa using hiv), List.getElem_map]
    rw [getQ, List.getD_eq_getElem _ _ hiv]
  obtain ⟨hlo, hhi⟩ := sz_vespx_bounds zp hthr hsqrt _ (getQ_mem _ _ hiv)
  rw [h1]
  constructor <;> linarith

/-- After the `-1` shift and the `is_inside` filter, sub-pixel row
coordinates lie in `[3/2, h - 5/2]` (`optimizer.cpp:676,726`). -/
theorem sz_subpixels_y_bounds (zp : ZParams) (hthr : 0 ≤ zp.gradIrThr)
    (hsqrt : zp.sqrtF 0 = 0) (v : ℚ) (hv : v ∈ sz_subpixels_y zp) :
    3 / 2 ≤ v ∧ v ≤ (zp.h : ℚ) - 5 / 2 := by
  rw [sz_subpixels_y, dfilter, depth_filter_one] at hv
  obtain ⟨i, himem, rfl⟩ := List.mem_map.mp hv
  have hir : i < (sz_inside zp).length := List.mem_range.mp (List.mem_filter.mp himem).1
  have hiv : i < (sz_vespy zp).length := by
    rw [← sz_vespxy_length, ← sz_inside_length]; exact hir
  have h1 : (sz_vespy1 zp).getD i 0 = getQ (sz_vespy zp) i + (-1) := by
    rw [sz_vespy1, List.getD_eq_getElem _ _ (by simpa using hiv), List.getElem_map]
    rw [getQ, List.getD_eq_getElem _ _ hiv]
  obtain ⟨hlo, hhi⟩ := sz_vespy_bounds zp hthr hsqrt _ (getQ_mem _ _ hiv)
  rw [h1]
  constructor <;> linarith

/-- Every rounded column coordinate is an integer in `[3, w - 1]`
(`optimizer.cpp:738,742`). -/
theorem sz_x_round_bounds (zp : ZParams) (hthr : 0 ≤ zp.gradIrThr)
    (hsqrt : zp.sqrtF 0 = 0) (v : ℚ) (hv : v ∈ sz_x_round zp) :
    ∃ m : ℤ, v = (m : ℚ) ∧ 3 ≤ m ∧ m + 1 ≤ (zp.w : ℤ) := by
  rw [sz_x_round] at hv
  obtain ⟨x, hx, rfl⟩ := List.mem_map.mp hv
  obtain ⟨hlo, hhi⟩ := sz_subpixels_x_bounds zp hthr hsqrt x hx
  refine ⟨round (x + 1), rfl, ?_, ?_⟩
  · rw [round_eq, Int.le_floor]
    push_cast
    linarith
  · have hfl : (⌊x + 1 + 1 / 2⌋ : ℤ) < (zp.w : ℤ) := by
      rw [Int.floor_lt]
      push_cast
      linarith
    rw [round_eq]
    omega

/-- Every rounded row coordinate is an integer in `[3, h - 1]`
(`optimizer.cpp:739,741`). -/
theorem sz_y_round_bounds (zp : ZParams) (hthr : 0 ≤ zp.gradIrThr)
    (hsqrt : zp.sqrtF 0 = 0) (v : ℚ) (hv : v ∈ sz_y_round zp) :
    ∃ m : ℤ, v = (m : ℚ) ∧ 3 ≤ m ∧ m + 1 ≤ (zp.h : ℤ) := by
  rw [sz_y_round] at hv
  obtain ⟨x, hx, rfl⟩ := List.mem_map.mp hv
  obtain ⟨hlo, hhi⟩ := sz_subpixels_y_bounds zp hthr hsqrt x hx
  refine ⟨round (x + 1), rfl, ?_, ?_⟩
  · rw [round_eq, Int.le_floor]
    push_cast
    linarith
  · have hfl : (⌊x + 1 + 1 / 2⌋ : ℤ) < (zp.h : ℤ) := by
      rw [Int.floor_lt]
      push_cast
      linarith
    rw [round_eq]
    omega

/-- **C10.** Every write into the relevant-pixels image targets an index
inside the `width × height` buffer: each retained sub-pixel edge
coordinate, rounded to the nearest integer pixel, lies within the
depth-image bounds, so the flat write index `(y-1)*width + (x-1)` is a
natural number below `width*height`.  This holds whenever the IR edge
threshold is nonnegative and `sqrt 0 = 0`; the unclamped parabolic
offset is harmless because every retained pixel passed the suppression
test, which caps the offset magnitude at `1/2`
(`optimizer.cpp:734-750` and `576-593`). -/
theorem write_indices_in_bounds (zp : ZParams) (hthr : 0 ≤ zp.gradIrThr)
    (hsqrt : zp.sqrtF 0 = 0) :
    ∀ v ∈ sz_writes zp, ∃ k : ℕ, v = (k : ℚ) ∧ k < zp.w * zp.h := by
  intro v hv
  rw [sz_writes] at hv
  obtain ⟨i, hi, rfl⟩ := List.mem_map.mp hv
  have hix : i < (sz_x_round zp).length := List.mem_range.mp hi
  have hiy : i < (sz_y_round zp).length := by rw [← sz_round_length]; exact hix
  obtain ⟨mx, hmx, hmx3, hmxw⟩ := sz_x_round_bounds zp hthr hsqrt _ (getQ_mem _ _ hix)
  obtain ⟨my, hmy, hmy3, hmyh⟩ := sz_y_round_bounds zp hthr hsqrt _ (getQ_mem _ _ hiy)
  have hw0 : (0 : ℤ) ≤ (zp.w : ℤ) := by exact_mod_cast Nat.zero_le _
  have hnn : 0 ≤ (my - 1) * (zp.w : ℤ) + mx - 1 := by
    have h1 : 0 ≤ (my - 1) * (zp.w : ℤ) := mul_nonneg (by omega) hw0
    omega
  have hexp : ((zp.h : ℤ) - 2) * (zp.w : ℤ) = (zp.w : ℤ) * (zp.h : ℤ) - 2 * (zp.w : ℤ) := by
    ring
  have hub : (my - 1) * (zp.w : ℤ) + mx - 1 < (zp.w : ℤ) * (zp.h : ℤ) := by
    have h1 : (my - 1) * (zp.w : ℤ) ≤ ((zp.h : ℤ) - 2) * (zp.w : ℤ) :=
      mul_le_mul_of_nonneg_right (by omega) hw0
    linarith
  refine ⟨((my - 1) * (zp.w : ℤ) + mx - 1).toNat, ?_, ?_⟩
  · rw [hmx, hmy]
    have hcast : ((((my - 1) * (zp.w : ℤ) + mx - 1).toNat : ℕ) : ℚ)
        = (((my - 1) * (zp.w : ℤ) + mx - 1 : ℤ) : ℚ) := by
      rw [← Int.cast_natCast (R := ℚ), Int.toNat_of_nonneg hnn]
    rw [hcast]
    push_cast
    ring
  · have hlt : ((((my - 1) * (zp.w : ℤ) + mx - 1).toNat : ℕ) : ℤ)
        < ((zp.w * zp.h : ℕ) : ℤ) := by
      rw [Int.toNat_of_nonneg hnn]
      push_cast
      linarith
    exact_mod_cast hlt

/-- A concrete 5×5 all-zero input for the write-bounds witness. -/
def c10zp : ZParams :=
  ⟨5, 5, fun _ => 0, fun _ => 0, fun _ => 0, fun _ _ => 0, fun _ => 0,
   fun _ => 0, fun _ => (0, 0), 0, 0, 1, 1, 1, 1⟩

/-- Witness for **C10** at the concrete 5×5 input: the threshold is
nonnegative and the abstract square root sends 0 to 0 there. -/
theorem write_indices_in_bounds_witness :
    (0 : ℚ) ≤ c10zp.gradIrThr ∧ c10zp.sqrtF 0 = 0
      ∧ ∀ v ∈ sz_writes c10zp, ∃ k : ℕ, v = (k : ℚ) ∧ k < c10zp.w * c10zp.h :=
  ⟨le_refl 0, rfl, write_indices_in_bounds c10zp (le_refl 0) rfl⟩

end DepthToRgb
